import Mathlib

/-!
Verification model of `commands/ExportCommand.py` from the
Fusion360-ExportForPrinting add-in.

Python dictionaries are modelled as insertion-ordered association lists
(`PyDict`); JSON values as the inductive `JValue`; the Fusion occurrence and
component hierarchy as a mutual inductive tree.  Host-API effects performed by
`export` (mesh export, move features, file deletion, the progress dialog and
its cancel button, `datetime.now`) are modelled by explicit state passing over
`ExportState` together with an oracle `ExportEnv`.
-/

/-- A Python `dict` with string keys: an insertion-ordered association list. -/
abbrev PyDict (β : Type) := List (String × β)

/-- `d.get(k, None)`: the value stored under `k`, if any. -/
def dictGet? {β : Type} (d : PyDict β) (k : String) : Option β :=
  (d.find? (fun p => p.1 == k)).map (·.2)

/-- `d.get(k, dflt)`. -/
def dictGetD {β : Type} (d : PyDict β) (k : String) (dflt : β) : β :=
  (dictGet? d k).getD dflt

/-- `d[k] = v`: replace the value at an existing key in place, else append. -/
def dictSet {β : Type} (d : PyDict β) (k : String) (v : β) : PyDict β :=
  match d with
  | [] => [(k, v)]
  | (k', v') :: rest => if k' == k then (k', v) :: rest else (k', v') :: dictSet rest k v

/-- `d.update(o)`: assign every binding of `o` into `d`, in `o`'s order. -/
def dictUpdate {β : Type} (d o : PyDict β) : PyDict β :=
  o.foldl (fun acc p => dictSet acc p.1 p.2) d

/-- The keys of a dict, in insertion order. -/
def dictKeys {β : Type} (d : PyDict β) : List String := d.map (·.1)

/-- `defaultdict(int)`-style `d[k] += n`: missing keys are treated as `0`
and materialised by the write. -/
def dictIncr (d : PyDict Int) (k : String) (n : Int) : PyDict Int :=
  match dictGet? d k with
  | some v => dictSet d k (v + n)
  | none => d ++ [(k, n)]

/-- JSON values as produced by `json.loads` / consumed by `json.dumps`
(floats do not occur in this program's files). -/
inductive JValue where
  | null
  | bool (b : Bool)
  | int (n : Int)
  | str (s : String)
  | arr (items : List JValue)
  | obj (fields : List (String × JValue))

/-- A Python value that is either a string or `None`, as JSON. -/
def optStr : Option String → JValue
  | none => JValue.null
  | some s => JValue.str s

/-- A Python value that is either an int or `None`, as JSON. -/
def optInt : Option Int → JValue
  | none => JValue.null
  | some n => JValue.int n

/-- Python string comparison `a < b` (lexicographic by code point). -/
def charListLt : List Char → List Char → Bool
  | _, [] => false
  | [], _ :: _ => true
  | a :: as, b :: bs => if a < b then true else if b < a then false else charListLt as bs

/-- Python `a < b` on strings. -/
def pyStrLt (a b : String) : Bool := charListLt a.data b.data

/-- Python `s.endswith(suffix)`. -/
def pyEndsWith (s suffix : String) : Bool := suffix.data.isSuffixOf s.data

/-- Python `s.startswith(prefix)`. -/
def pyStartsWith (s pre : String) : Bool := pre.data.isPrefixOf s.data

/-- Python `s[: -n]` (note `s[:-0]` is the empty string). -/
def pySliceNeg (s : String) (n : Nat) : String :=
  if n = 0 then "" else String.mk (s.data.take (s.data.length - n))

/-- `pathlib`'s `a / b`, rendered as a string: an absolute right operand
replaces the left one. -/
def pathJoin (a b : String) : String :=
  if pyStartsWith b "/" then b else a ++ "/" ++ b

/-- Python `x or y` on optional strings: `x` when it is a non-empty string,
otherwise `y`. -/
def pyOrStr : Option String → Option String → Option String
  | some s, y => if s == "" then y else some s
  | none, y => y

-- ===== The configuration dataclasses (`ComponentExportConfig`, `ExportConfig`) =====

/-- `VALID_ORIENTATIONS` from the source. -/
def VALID_ORIENTATIONS : List String := ["x", "y", "z", "-x", "-y", "-z"]

/-- The `ComponentExportConfig` dataclass.  Every field defaults to `None`
in the source, hence the `Option` types. -/
structure ComponentExportConfig where
  name : Option String := none
  «to» : Option String := none
  up : Option String := none
  fmt : Option String := none
  count : Option Int := none
deriving DecidableEq

/-- `v is None` on a JSON-decoded value. -/
def jIsNull : JValue → Bool
  | JValue.null => true
  | _ => false

/-- Python attribute lookup on a `ComponentExportConfig` instance: only the
five dataclass fields exist; any other name raises `AttributeError`. -/
def ComponentExportConfig.attr? (c : ComponentExportConfig) : String → Option JValue
  | "name" => some (optStr c.name)
  | "to" => some (optStr c.«to»)
  | "up" => some (optStr c.up)
  | "fmt" => some (optStr c.fmt)
  | "count" => some (optInt c.count)
  | _ => none

/-- `ComponentExportConfig.to_dict`.  The source tests `self.orientation`,
which is not an attribute of the dataclass, so Python raises
`AttributeError` whenever this method runs. -/
def ComponentExportConfig.to_dict (c : ComponentExportConfig) :
    Except String (List (String × JValue)) := do
  let rv := [("name", optStr c.name), ("to", optStr c.«to»)]
  let orientation ← match c.attr? "orientation" with
    | some v => pure v
    | none => throw "AttributeError: ComponentExportConfig object has no attribute orientation"
  let rv := if !(jIsNull orientation) then dictSet rv "up" (optStr c.up) else rv
  let rv := if c.fmt.isSome then dictSet rv "fmt" (optStr c.fmt) else rv
  let rv := if c.count.isSome then dictSet rv "count" (optInt c.count) else rv
  pure rv

/-- The `ExportConfig` dataclass.  `modified` is annotated `datetime` in the
source but actually holds the ISO-format *string* that `parse_file` stores. -/
structure ExportConfig where
  fmt : Option String := none
  components : List ComponentExportConfig := []
  modified : Option String := none
deriving DecidableEq

/-- Python `sorted(dicts, key=lambda x: x["name"])`: a stable sort by the
`"name"` value.  With at most one element no comparison runs; otherwise the
keys must be strings for `<` to be defined. -/
def sortByName (dicts : List (List (String × JValue))) :
    Except String (List (List (String × JValue))) :=
  match dicts with
  | [] => Except.ok []
  | [d] => Except.ok [d]
  | _ =>
    if dicts.all (fun d => match dictGet? d "name" with | some (JValue.str _) => true | _ => false)
    then Except.ok (dicts.mergeSort (fun a b =>
      match dictGet? a "name", dictGet? b "name" with
      | some (JValue.str x), some (JValue.str y) => !(pyStrLt y x)
      | _, _ => true))
    else Except.error "TypeError: unorderable sort keys"

/-- `emit_file`, at the JSON-value level: the object that would be serialised
into the config file. -/
def emit_file (config : ExportConfig) : Except String JValue := do
  let dicts ← config.components.mapM ComponentExportConfig.to_dict
  let sortedComponents ← sortByName dicts
  pure (JValue.obj
    [("v", JValue.int 1), ("fmt", optStr config.fmt),
     ("components", JValue.arr (sortedComponents.map JValue.obj))])

/-- Python `int(v)` on a JSON-decoded value. -/
def pyInt : JValue → Except String Int
  | JValue.int n => Except.ok n
  | JValue.bool b => Except.ok (if b then 1 else 0)
  | JValue.str s =>
    let t := s.trim
    let t := if pyStartsWith t "+" then t.drop 1 else t
    match t.toInt? with
    | some n => Except.ok n
    | none => Except.error "ValueError: invalid literal for int()"
  | JValue.null => Except.error "TypeError: int() argument must not be None"
  | JValue.arr _ => Except.error "TypeError: int() argument"
  | JValue.obj _ => Except.error "TypeError: int() argument"

/-- A string-or-null JSON field, as the `Option String` the dataclass holds.
Values of any other shape are rejected here, where Python would store them
and fail later at their first string use. -/
def jStrField? : Option JValue → Except String (Option String)
  | none => Except.ok none
  | some JValue.null => Except.ok none
  | some (JValue.str s) => Except.ok (some s)
  | some _ => Except.error "TypeError: expected a string field"

/-- An int-or-null JSON field, as `Option Int` (same caveat as `jStrField?`). -/
def jIntField? : Option JValue → Except String (Option Int)
  | none => Except.ok none
  | some JValue.null => Except.ok none
  | some (JValue.int n) => Except.ok (some n)
  | some _ => Except.error "TypeError: expected an int field"

/-- `ComponentExportConfig(**cmp_dict)`: unknown keywords raise `TypeError`;
absent fields take their `None` defaults. -/
def componentFromDict (d : List (String × JValue)) : Except String ComponentExportConfig := do
  if d.all (fun p => ["name", "to", "up", "fmt", "count"].contains p.1) then
    let name ← jStrField? (dictGet? d "name")
    let toVal ← jStrField? (dictGet? d "to")
    let up ← jStrField? (dictGet? d "up")
    let fmt ← jStrField? (dictGet? d "fmt")
    let count ← jIntField? (dictGet? d "count")
    pure { name := name, «to» := toVal, up := up, fmt := fmt, count := count }
  else throw "TypeError: unexpected keyword argument"

/-- Lines 91–93 of the source: when the file gives no count and a counts
dictionary was supplied, default the count to `counts.get(cmp.name, 1)`. -/
def applyCountDefault (counts : Option (PyDict Int)) (cmp : ComponentExportConfig) :
    ComponentExportConfig :=
  match cmp.count, counts with
  | none, some cd =>
    { cmp with count := some (match cmp.name with
        | some n => dictGetD cd n 1
        | none => 1) }
  | _, _ => cmp

/-- The `for cmp_dict in obj.get("components", [])` loop of `parse_file`:
build each dataclass, apply the count default, append. -/
def parseComponentsList (counts : Option (PyDict Int)) :
    List JValue → Except String (List ComponentExportConfig)
  | [] => Except.ok []
  | item :: rest => do
    let c ← match item with
      | JValue.obj d => (componentFromDict d).map (applyCountDefault counts)
      | _ => Except.error "TypeError: argument after ** must be a mapping"
    let cs ← parseComponentsList counts rest
    pure (c :: cs)

/-- The `"components"` entry of the config file, parsed into dataclasses with
count defaulting applied. -/
def parseComponentsField (counts : Option (PyDict Int)) :
    Option JValue → Except String (List ComponentExportConfig)
  | none => Except.ok []
  | some (JValue.arr items) => parseComponentsList counts items
  | some _ => Except.error "TypeError: components is not iterable"

/-- `parse_file`, at the JSON-value level.  `mtime` stands for the ISO-format
string of the config file's `st_mtime`. -/
def parse_file (obj : JValue) (mtime : String) (counts : Option (PyDict Int)) :
    Except String ExportConfig := do
  match obj with
  | JValue.obj fields =>
    let version ← pyInt ((dictGet? fields "v").getD (JValue.int 0))
    if version != 1 then
      throw ("AssertionError: Unknown version " ++ toString version)
    else
      let fmt ← jStrField? (dictGet? fields "fmt")
      let components ← parseComponentsField counts (dictGet? fields "components")
      pure { fmt := fmt, components := components, modified := some mtime }
  | _ => throw "AttributeError: object has no attribute get"

-- ===== The assembly tree: components, occurrences, occurrence lists =====

mutual
/-- A Fusion component: a named part definition with its child occurrences
(`component.occurrences`) and a revision id. -/
inductive Component where
  | mk (name : String) (revisionId : String) (occurrences : OccurrenceList)

/-- A Fusion occurrence: a placed instance of a component.  Its
`childOccurrences` mirror the occurrences of its component. -/
inductive Occurrence where
  | mk (name : String) (component : Component)

/-- A list of occurrences (`Component.occurrences`, `Occurrence.childOccurrences`,
`OccurrenceList`). -/
inductive OccurrenceList where
  | nil
  | cons (head : Occurrence) (tail : OccurrenceList)
end

/-- `component.name`. -/
def Component.name : Component → String
  | Component.mk n _ _ => n

/-- `component.revisionId`. -/
def Component.revisionId : Component → String
  | Component.mk _ r _ => r

/-- `component.occurrences`. -/
def Component.occurrences : Component → OccurrenceList
  | Component.mk _ _ occs => occs

/-- `occurrence.name`. -/
def Occurrence.name : Occurrence → String
  | Occurrence.mk n _ => n

/-- `occurrence.component`. -/
def Occurrence.component : Occurrence → Component
  | Occurrence.mk _ c => c

/-- `occurrence.childOccurrences`: the occurrences of its component. -/
def Occurrence.childOccurrences (o : Occurrence) : OccurrenceList :=
  o.component.occurrences

/-- An `OccurrenceList` as a Lean list, for stating properties. -/
def OccurrenceList.toList : OccurrenceList → List Occurrence
  | OccurrenceList.nil => []
  | OccurrenceList.cons o rest => o :: rest.toList

/-- The `Occurrence | Component` union taken by `recursiveEnumerateComponents`
and `export`. -/
inductive OccOrComponent where
  | occ (o : Occurrence)
  | comp (c : Component)

mutual
/-- The `isinstance(rootOcc, Component)` branch of
`recursiveEnumerateComponents`: record the component under its name, then
fold the recursive results of its occurrences into the dictionary. -/
def enumComponent : Component → PyDict Component
  | Component.mk n r occs =>
    enumOccurrences (dictSet [] n (Component.mk n r occs)) occs

/-- The occurrence branch of `recursiveEnumerateComponents`: record
`rootOcc.component` under its name, then recurse over `childOccurrences`. -/
def enumOccurrence : Occurrence → PyDict Component
  | Occurrence.mk _ (Component.mk n r occs) =>
    enumOccurrences (dictSet [] n (Component.mk n r occs)) occs

/-- The `for occ in ...: rv.update(recursiveEnumerateComponents(occ))` loop
shared by both branches. -/
def enumOccurrences : PyDict Component → OccurrenceList → PyDict Component
  | rv, OccurrenceList.nil => rv
  | rv, OccurrenceList.cons o rest =>
    enumOccurrences (dictUpdate rv (enumOccurrence o)) rest
end

/-- `recursiveEnumerateComponents`, dispatching on `isinstance` like the
source. -/
def recursiveEnumerateComponents : OccOrComponent → PyDict Component
  | OccOrComponent.comp c => enumComponent c
  | OccOrComponent.occ o => enumOccurrence o

/-- The first loop of `recursiveCountOccurences`: count direct occurrences of
each component name (`rv[occ.component.name] += 1`). -/
def countDirectLoop : PyDict Int → OccurrenceList → PyDict Int
  | rv, OccurrenceList.nil => rv
  | rv, OccurrenceList.cons o rest =>
    countDirectLoop (dictIncr rv o.component.name 1) rest

/-- The inner merge of `recursiveCountOccurences`:
`for key, count in child.items(): rv[key] += count * rv[occ.component.name]`.
The multiplier is re-read from the evolving `rv` at every item, exactly as
the source does. -/
def mergeChildCounts (parentName : String) : PyDict Int → List (String × Int) → PyDict Int
  | rv, [] => rv
  | rv, (key, count) :: rest =>
    mergeChildCounts parentName (dictIncr rv key (count * dictGetD rv parentName 0)) rest

/-- The second loop of `recursiveCountOccurences`, with the recursive call on
`occ.childOccurrences` unfolded in place (`recursiveCountOccurences l` is by
definition `countMergeLoop (countDirectLoop [] l) l`). -/
def countMergeLoop : PyDict Int → OccurrenceList → PyDict Int
  | rv, OccurrenceList.nil => rv
  | rv, OccurrenceList.cons (Occurrence.mk oname (Component.mk cname _ coccs)) rest =>
    countMergeLoop
      (if pyEndsWith oname ":1" then
        mergeChildCounts cname rv
          (countMergeLoop (countDirectLoop [] coccs) coccs)
      else rv)
      rest

/-- `recursiveCountOccurences`: direct counts first, then the `":1"`
sub-tree merges. -/
def recursiveCountOccurences (occurrences : OccurrenceList) : PyDict Int :=
  countMergeLoop (countDirectLoop [] occurrences) occurrences

mutual
/-- All components the traversal can reach from a component: itself plus
everything below its occurrences. -/
def Component.reachList : Component → List Component
  | Component.mk n r occs => Component.mk n r occs :: OccurrenceList.reachList occs

/-- All components reachable from an occurrence: those of its component. -/
def Occurrence.reachList : Occurrence → List Component
  | Occurrence.mk _ c => Component.reachList c

/-- All components reachable from a list of occurrences. -/
def OccurrenceList.reachList : OccurrenceList → List Component
  | OccurrenceList.nil => []
  | OccurrenceList.cons o rest => Occurrence.reachList o ++ OccurrenceList.reachList rest
end

/-- All components reachable from the traversal root. -/
def rootReach : OccOrComponent → List Component
  | OccOrComponent.comp c => c.reachList
  | OccOrComponent.occ o => o.reachList

-- ===== The export driver (`export`) =====

/-- A manifest (`version_control`) entry, as written at lines 212–218 of the
source: a flat dictionary of five string fields. -/
structure ManifestEntry where
  component : String
  filename : String
  revisionId : String
  fromDocument : String
  changed : String
deriving DecidableEq

/-- JSON serialisation of a manifest entry: exactly the five fields, in the
order the source writes them. -/
def ManifestEntry.toJson (e : ManifestEntry) : JValue :=
  JValue.obj
    [("component", JValue.str e.component), ("filename", JValue.str e.filename),
     ("revisionId", JValue.str e.revisionId), ("fromDocument", JValue.str e.fromDocument),
     ("changed", JValue.str e.changed)]

/-- JSON serialisation of the whole manifest: a flat one-level object from
file key to entry. -/
def manifestToJson (vc : PyDict ManifestEntry) : JValue :=
  JValue.obj (vc.map (fun p => (p.1, p.2.toJson)))

/-- The keys of a JSON object. -/
def objKeys : JValue → List String
  | JValue.obj fields => fields.map (·.1)
  | _ => []

/-- Is this JSON value a flat object whose values are all strings? -/
def isFlatStringObj : JValue → Bool
  | JValue.obj fields => fields.all (fun p => match p.2 with | JValue.str _ => true | _ => false)
  | _ => false

/-- Environment sampled by `export`: `datetime.now().isoformat()` and the
dialog's `wasCancelled` at iteration `i`, plus `ao.root_comp.name`. -/
structure ExportEnv where
  now : Nat → String
  cancelled : Nat → Bool
  rootCompName : String

/-- Observable events of one `export` run, one per loop iteration:
a component was skipped, or exported under `key` with `entry` written to the
manifest, `rotated` recording whether a temporary move feature was used. -/
inductive Event where
  | skipped (i : Nat) (name : String)
  | exported (i : Nat) (name : String) (key : String) (entry : ManifestEntry) (rotated : Bool)
deriving DecidableEq

/-- The state threaded through `export`: the in-memory manifest, the set of
files on disk, the number of move features each component carries, the
manifest file's content, the progress dialog value, and the event trace.
The trace is observational instrumentation only — one event appended per
loop iteration — and no modelled operation ever reads it. -/
structure ExportState where
  version_control : PyDict ManifestEntry
  disk : List String
  moveFeatures : PyDict Int
  manifestFile : Option (PyDict ManifestEntry)
  progressValue : Nat
  trace : List Event
deriving DecidableEq

/-- The filesystem as `export` finds it: the manifest file (if it exists),
the data files present, and each component's move-feature count. -/
structure FS where
  manifestFile : Option (PyDict ManifestEntry)
  disk : List String
  moveFeatures : PyDict Int

/-- `file_ext = cfg.fmt or main_cfg.fmt` (line 174). -/
def effectiveExt (main_cfg : ExportConfig) (cfg : ComponentExportConfig) : Option String :=
  pyOrStr cfg.fmt main_cfg.fmt

/-- Lines 176–179: strip the extension from the basename if present; the
result is the manifest file key. -/
def mkFileKey (file_to file_ext : String) : String :=
  if pyEndsWith file_to file_ext then pySliceNeg file_to file_ext.length else file_to

/-- Lines 182–185: append `_x{count}` when a count is configured, then the
extension. -/
def mkFileName (file_to file_ext : String) (count : Option Int) : String :=
  (match count with
   | some n => mkFileKey file_to file_ext ++ "_x" ++ toString n
   | none => mkFileKey file_to file_ext) ++ "." ++ file_ext

/-- The manifest entry written for an exported component (lines 212–218). -/
def mkEntry (env : ExportEnv) (i : Nat) (cmp : Component) (filepath : String) : ManifestEntry :=
  { component := cmp.name, filename := filepath, revisionId := cmp.revisionId,
    fromDocument := env.rootCompName, changed := env.now i }

/-- The skip test of lines 191–196: same component name, same revision id,
target file on disk, and (`modified` truthy and) the entry's `changed`
before the config file's `modified`. -/
def skipB (main_cfg : ExportConfig) (cmp : Component) (filepath : String)
    (disk : List String) (old : ManifestEntry) : Bool :=
  old.component == cmp.name && old.revisionId == cmp.revisionId &&
    disk.contains filepath &&
    (match main_cfg.modified with
     | none => false
     | some m => pyStrLt old.changed m)

/-- Lines 230–245: whether a temporary move feature is created.  The
`assert cfg.up in VALID_ORIENTATIONS` can fail here. -/
def rotationNeeded : Option String → Except String Bool
  | none => Except.ok false
  | some u =>
    if u != "z" then
      if VALID_ORIENTATIONS.contains u then Except.ok true
      else Except.error ("AssertionError: Invalid orientation " ++ u)
    else Except.ok false

/-- `rotationNeeded` when it succeeds. -/
def rotB : Option String → Bool
  | none => false
  | some u => u != "z"

/-- Add a path to the disk (an existing file is overwritten in place). -/
def addFile (disk : List String) (p : String) : List String :=
  if disk.contains p then disk else disk ++ [p]

/-- `unlink` guarded by `exists()`: remove the path if present. -/
def removeFile (disk : List String) (p : String) : List String :=
  disk.erase p

/-- The export path of one loop iteration (lines 212–270, after the skip
decision): write the manifest entry, optionally create a move feature,
export the mesh, delete the move feature, then check the cancel button.
Returns the new state and whether the loop breaks. -/
def doExport (env : ExportEnv) (i : Nat) (cfg : ComponentExportConfig) (cmp : Component)
    (file_key filepath : String) (st : ExportState) : Except String (ExportState × Bool) := do
  let st := { st with version_control := dictSet st.version_control file_key (mkEntry env i cmp filepath) }
  let rotated ← rotationNeeded cfg.up
  let st := if rotated then { st with moveFeatures := dictIncr st.moveFeatures cmp.name 1 } else st
  let st := { st with disk := addFile st.disk filepath }
  let st := if rotated then { st with moveFeatures := dictIncr st.moveFeatures cmp.name (-1) } else st
  let st := { st with trace := st.trace ++ [Event.exported i cmp.name file_key (mkEntry env i cmp filepath) rotated] }
  if env.cancelled i then pure (st, true)
  else pure ({ st with progressValue := i + 1 }, false)

/-- One iteration of the export loop (lines 167–270). -/
def exportStep (env : ExportEnv) (main_cfg : ExportConfig) (output_dir : String)
    (i : Nat) (cfg : ComponentExportConfig) (cmp : Component) (st : ExportState) :
    Except String (ExportState × Bool) :=
  let st := { st with progressValue := i }
  match cfg.«to», effectiveExt main_cfg cfg with
  | none, _ => Except.error "AttributeError: NoneType object has no attribute endswith"
  | some _, none => Except.error "TypeError: endswith first arg must be str, not None"
  | some file_to, some file_ext =>
    let file_key := mkFileKey file_to file_ext
    let filepath := pathJoin output_dir (mkFileName file_to file_ext cfg.count)
    match dictGet? st.version_control file_key with
    | some old_version =>
      if skipB main_cfg cmp filepath st.disk old_version then
        Except.ok ({ st with trace := st.trace ++ [Event.skipped i cmp.name] }, false)
      else
        let st :=
          if old_version.filename != filepath then
            { st with disk := removeFile st.disk (pathJoin output_dir old_version.filename) }
          else st
        doExport env i cfg cmp file_key filepath st
    | none => doExport env i cfg cmp file_key filepath st

/-- The `for i, (cfg, cmp) in enumerate(components)` loop, with `break`. -/
def exportLoop (env : ExportEnv) (main_cfg : ExportConfig) (output_dir : String) :
    Nat → List (ComponentExportConfig × Component) → ExportState → Except String ExportState
  | _, [], st => Except.ok st
  | i, (cfg, cmp) :: rest, st =>
    match exportStep env main_cfg output_dir i cfg cmp st with
    | Except.error e => Except.error e
    | Except.ok (st', true) => Except.ok st'
    | Except.ok (st', false) => exportLoop env main_cfg output_dir (i + 1) rest st'

/-- Lines 143–146: the configured components whose names are found in the
assembly, paired with their components, in config order. -/
def selectedComponents (main_cfg : ExportConfig) (all_components : PyDict Component) :
    List (ComponentExportConfig × Component) :=
  main_cfg.components.filterMap (fun cfg =>
    (cfg.name.bind (dictGet? all_components)).map (fun c => (cfg, c)))

/-- `export` (named `export'` because `export` is reserved in Lean): enumerate
the assembly, select the configured components, load the manifest file if it
exists, run the loop, and write the manifest back out. -/
def export' (env : ExportEnv) (main_cfg : ExportConfig) (output_dir : String)
    (root : OccOrComponent) (fs : FS) : Except String ExportState :=
  let all_components := recursiveEnumerateComponents root
  let components := selectedComponents main_cfg all_components
  let st0 : ExportState :=
    { version_control := fs.manifestFile.getD []
      disk := fs.disk
      moveFeatures := fs.moveFeatures
      manifestFile := fs.manifestFile
      progressValue := 0
      trace := [] }
  match exportLoop env main_cfg output_dir 0 components st0 with
  | Except.error e => Except.error e
  | Except.ok st => Except.ok { st with manifestFile := some st.version_control }

-- ===== Dictionary lemmas =====

theorem dictGet?_nil {β : Type} (k : String) : dictGet? ([] : PyDict β) k = none := rfl

theorem dictGet?_cons {β : Type} (k' : String) (v' : β) (d : PyDict β) (k : String) :
    dictGet? ((k', v') :: d) k = if k' = k then some v' else dictGet? d k := by
  by_cases h : k' = k
  · subst h
    simp [dictGet?, List.find?]
  · have hb : (k' == k) = false := by simp [h]
    simp [dictGet?, List.find?, hb, h]

theorem dictGet?_dictSet_self {β : Type} (d : PyDict β) (k : String) (v : β) :
    dictGet? (dictSet d k v) k = some v := by
  induction d with
  | nil => simp [dictSet, dictGet?_cons]
  | cons p rest ih =>
    obtain ⟨k', v'⟩ := p
    simp only [dictSet]
    by_cases h : k' = k
    · simp [h, dictGet?_cons]
    · simp [h, beq_iff_eq, dictGet?_cons, ih]

theorem dictGet?_dictSet_ne {β : Type} (d : PyDict β) (k k' : String) (v : β)
    (h : k' ≠ k) : dictGet? (dictSet d k v) k' = dictGet? d k' := by
  induction d with
  | nil =>
    show dictGet? [(k, v)] k' = dictGet? [] k'
    rw [dictGet?_cons]
    simp [Ne.symm h]
  | cons p rest ih =>
    obtain ⟨k0, v0⟩ := p
    simp only [dictSet]
    by_cases h0 : k0 = k
    · subst h0
      simp [dictGet?_cons, Ne.symm h]
    · simp [h0, beq_iff_eq, dictGet?_cons, ih]

theorem mem_dictSet {β : Type} {d : PyDict β} {k x : String} {v y : β}
    (h : (x, y) ∈ dictSet d k v) : (x, y) ∈ d ∨ (x = k ∧ y = v) := by
  induction d with
  | nil =>
    simp only [dictSet, List.mem_singleton, Prod.mk.injEq] at h
    exact Or.inr h
  | cons p rest ih =>
    obtain ⟨k0, v0⟩ := p
    simp only [dictSet] at h
    by_cases h0 : k0 = k
    · rw [if_pos (by simp [h0])] at h
      rcases List.mem_cons.mp h with h | h
      · rw [Prod.mk.injEq] at h
        exact Or.inr ⟨h.1.trans h0, h.2⟩
      · exact Or.inl (List.mem_cons_of_mem _ h)
    · rw [if_neg (by simp [h0])] at h
      rcases List.mem_cons.mp h with h | h
      · exact Or.inl (by simp [h])
      · rcases ih h with h' | h'
        · exact Or.inl (List.mem_cons_of_mem _ h')
        · exact Or.inr h'

theorem dictKeys_dictSet {β : Type} (d : PyDict β) (k : String) (v : β) :
    dictKeys (dictSet d k v) = if k ∈ dictKeys d then dictKeys d else dictKeys d ++ [k] := by
  induction d with
  | nil => simp [dictSet, dictKeys]
  | cons p rest ih =>
    obtain ⟨k0, v0⟩ := p
    simp only [dictSet, dictKeys]
    by_cases h0 : k0 = k
    · simp [h0, dictKeys]
    · simp only [beq_iff_eq, h0, if_false, List.map_cons, List.mem_cons]
      have hne : ¬ k = k0 := fun h => h0 h.symm
      simp only [dictKeys] at ih
      by_cases hk : k ∈ List.map Prod.fst rest
      · simp [hk, hne, ih]
      · simp [hk, hne, ih]

theorem dictKeys_dictSet_nodup {β : Type} (d : PyDict β) (k : String) (v : β)
    (h : (dictKeys d).Nodup) : (dictKeys (dictSet d k v)).Nodup := by
  rw [dictKeys_dictSet]
  by_cases hk : k ∈ dictKeys d
  · simp [hk, h]
  · simp [hk, h, List.Nodup.append, List.disjoint_singleton]

theorem mem_dictKeys_dictSet {β : Type} (d : PyDict β) (k x : String) (v : β) :
    x ∈ dictKeys (dictSet d k v) ↔ x ∈ dictKeys d ∨ x = k := by
  rw [dictKeys_dictSet]
  by_cases hk : k ∈ dictKeys d
  · simp only [hk, if_true]
    constructor
    · exact Or.inl
    · rintro (h | rfl)
      · exact h
      · exact hk
  · simp [hk]

theorem dictGet?_eq_some_mem {β : Type} {d : PyDict β} {k : String} {v : β}
    (h : dictGet? d k = some v) : (k, v) ∈ d := by
  induction d with
  | nil => simp [dictGet?] at h
  | cons p rest ih =>
    obtain ⟨k0, v0⟩ := p
    rw [dictGet?_cons] at h
    by_cases h0 : k0 = k
    · simp only [h0, if_true, Option.some.injEq] at h
      simp [h0, h]
    · simp only [h0, if_false] at h
      exact List.mem_cons_of_mem _ (ih h)

theorem dictGet?_isSome_iff_mem_keys {β : Type} (d : PyDict β) (k : String) :
    (dictGet? d k).isSome ↔ k ∈ dictKeys d := by
  induction d with
  | nil => simp [dictGet?, dictKeys]
  | cons p rest ih =>
    obtain ⟨k0, v0⟩ := p
    rw [dictGet?_cons]
    by_cases h0 : k0 = k
    · simp [h0, dictKeys]
    · simp only [h0, if_false, dictKeys, List.map_cons, List.mem_cons]
      simp only [dictKeys] at ih
      rw [ih]
      constructor
      · exact Or.inr
      · rintro (rfl | h)
        · exact absurd rfl h0
        · exact h

theorem mem_dictGet?_of_nodup {β : Type} {d : PyDict β} {k : String} {v : β}
    (hnd : (dictKeys d).Nodup) (h : (k, v) ∈ d) : dictGet? d k = some v := by
  induction d with
  | nil => simp at h
  | cons p rest ih =>
    obtain ⟨k0, v0⟩ := p
    simp only [dictKeys, List.map_cons, List.nodup_cons] at hnd
    rw [dictGet?_cons]
    rcases List.mem_cons.mp h with h | h
    · obtain ⟨rfl, rfl⟩ := Prod.mk.injEq .. ▸ h
      simp
    · by_cases h0 : k0 = k
      · subst h0
        exact absurd (List.mem_map_of_mem Prod.fst h) hnd.1
      · simp only [h0, if_false]
        exact ih hnd.2 h

theorem mem_dictUpdate {β : Type} {d o : PyDict β} {x : String} {y : β}
    (h : (x, y) ∈ dictUpdate d o) : (x, y) ∈ d ∨ (x, y) ∈ o := by
  induction o generalizing d with
  | nil => exact Or.inl h
  | cons p rest ih =>
    obtain ⟨k0, v0⟩ := p
    simp only [dictUpdate, List.foldl_cons] at h
    rcases ih h with h' | h'
    · rcases mem_dictSet h' with h'' | h''
      · exact Or.inl h''
      · exact Or.inr (by simp [h''])
    · exact Or.inr (List.mem_cons_of_mem _ h')

theorem dictKeys_dictUpdate_nodup {β : Type} (d o : PyDict β)
    (h : (dictKeys d).Nodup) : (dictKeys (dictUpdate d o)).Nodup := by
  induction o generalizing d with
  | nil => exact h
  | cons p rest ih =>
    exact ih _ (dictKeys_dictSet_nodup _ _ _ h)

theorem mem_dictKeys_dictUpdate_left {β : Type} {d : PyDict β} (o : PyDict β) {x : String}
    (h : x ∈ dictKeys d) : x ∈ dictKeys (dictUpdate d o) := by
  induction o generalizing d with
  | nil => exact h
  | cons p rest ih =>
    exact ih ((mem_dictKeys_dictSet _ _ _ _).mpr (Or.inl h))

theorem mem_dictKeys_dictUpdate_right {β : Type} {d o : PyDict β} {x : String}
    (h : x ∈ dictKeys o) : x ∈ dictKeys (dictUpdate d o) := by
  induction o generalizing d with
  | nil => simp [dictKeys] at h
  | cons p rest ih =>
    obtain ⟨k0, v0⟩ := p
    simp only [dictKeys, List.map_cons, List.mem_cons] at h
    rcases h with rfl | h
    · exact mem_dictKeys_dictUpdate_left rest ((mem_dictKeys_dictSet _ _ _ _).mpr (Or.inr rfl))
    · exact ih h

theorem dictGet?_append {β : Type} (d e : PyDict β) (k : String) :
    dictGet? (d ++ e) k =
      match dictGet? d k with
      | some v => some v
      | none => dictGet? e k := by
  induction d with
  | nil => simp [dictGet?]
  | cons p rest ih =>
    obtain ⟨k0, v0⟩ := p
    rw [List.cons_append, dictGet?_cons, dictGet?_cons]
    by_cases h0 : k0 = k
    · simp [h0]
    · simp [h0, ih]

theorem dictGet?_dictIncr_self (d : PyDict Int) (k : String) (n : Int) :
    dictGet? (dictIncr d k n) k = some (dictGetD d k 0 + n) := by
  unfold dictIncr dictGetD
  cases hd : dictGet? d k with
  | some v => simp [hd, dictGet?_dictSet_self]
  | none => simp [hd, dictGet?_append, dictGet?_cons]

theorem dictGet?_dictIncr_ne (d : PyDict Int) (k k' : String) (n : Int)
    (h : k' ≠ k) : dictGet? (dictIncr d k n) k' = dictGet? d k' := by
  unfold dictIncr
  cases hd : dictGet? d k with
  | some v => simp [dictGet?_dictSet_ne _ _ _ _ h]
  | none =>
    rw [dictGet?_append, dictGet?_cons]
    cases h' : dictGet? d k' with
    | some v => simp
    | none => simp [Ne.symm h, dictGet?]

theorem dictGetD_dictIncr_cancel (d : PyDict Int) (k x : String) :
    dictGetD (dictIncr (dictIncr d k 1) k (-1)) x 0 = dictGetD d x 0 := by
  by_cases hx : x = k
  · subst hx
    unfold dictGetD
    rw [dictGet?_dictIncr_self]
    have h1 := dictGet?_dictIncr_self d x 1
    simp [h1, dictGetD]
  · unfold dictGetD
    rw [dictGet?_dictIncr_ne _ _ _ _ hx, dictGet?_dictIncr_ne _ _ _ _ hx]

-- ===== Lemmas about `recursiveEnumerateComponents` (claim C4) =====

theorem enumOccurrence_eq (o : Occurrence) :
    enumOccurrence o = enumOccurrences (dictSet [] o.component.name o.component)
      o.component.occurrences := by
  obtain ⟨n, c⟩ := o
  obtain ⟨cn, cr, coccs⟩ := c
  rfl

theorem enumComponent_eq (c : Component) :
    enumComponent c = enumOccurrences (dictSet [] c.name c) c.occurrences := by
  obtain ⟨cn, cr, coccs⟩ := c
  rfl

mutual
theorem enumOccurrence_nodup (o : Occurrence) :
    (dictKeys (enumOccurrence o)).Nodup :=
  match o with
  | Occurrence.mk _ (Component.mk n r occs) =>
    enumOccurrences_nodup (dictSet [] n (Component.mk n r occs)) occs
      (dictKeys_dictSet_nodup _ _ _ (by simp [dictKeys]))

theorem enumOccurrences_nodup (rv : PyDict Component) (occs : OccurrenceList)
    (h : (dictKeys rv).Nodup) : (dictKeys (enumOccurrences rv occs)).Nodup :=
  match occs with
  | OccurrenceList.nil => h
  | OccurrenceList.cons _ rest =>
    enumOccurrences_nodup _ rest (dictKeys_dictUpdate_nodup _ _ h)
end

mutual
theorem enumOccurrence_entries (o : Occurrence) :
    ∀ k c, (k, c) ∈ enumOccurrence o → k = c.name ∧ c ∈ o.reachList :=
  match o with
  | Occurrence.mk onm (Component.mk n r occs) => by
    intro k c hmem
    rw [show enumOccurrence (Occurrence.mk onm (Component.mk n r occs))
        = enumOccurrences (dictSet [] n (Component.mk n r occs)) occs from rfl] at hmem
    rcases enumOccurrences_entries _ occs k c hmem with h | h
    · simp only [dictSet, List.mem_singleton, Prod.mk.injEq] at h
      refine ⟨by simp [h.1, h.2, Component.name], ?_⟩
      simp [Occurrence.reachList, Component.reachList, h.2]
    · refine ⟨h.1, ?_⟩
      simp [Occurrence.reachList, Component.reachList]
      exact Or.inr h.2

theorem enumOccurrences_entries (rv : PyDict Component) (occs : OccurrenceList) :
    ∀ k c, (k, c) ∈ enumOccurrences rv occs →
      (k, c) ∈ rv ∨ (k = c.name ∧ c ∈ occs.reachList) :=
  match occs with
  | OccurrenceList.nil => fun _ _ h => Or.inl h
  | OccurrenceList.cons o rest => by
    intro k c hmem
    rcases enumOccurrences_entries _ rest k c hmem with h | h
    · rcases mem_dictUpdate h with h' | h'
      · exact Or.inl h'
      · rcases enumOccurrence_entries o k c h' with ⟨h1, h2⟩
        exact Or.inr ⟨h1, by simp [OccurrenceList.reachList]; exact Or.inl h2⟩
    · exact Or.inr ⟨h.1, by simp [OccurrenceList.reachList]; exact Or.inr h.2⟩
end

mutual
theorem enumOccurrence_complete (o : Occurrence) :
    ∀ c, c ∈ o.reachList → c.name ∈ dictKeys (enumOccurrence o) :=
  match o with
  | Occurrence.mk onm (Component.mk n r occs) => by
    intro c hc
    simp only [Occurrence.reachList, Component.reachList, List.mem_cons] at hc
    rw [show enumOccurrence (Occurrence.mk onm (Component.mk n r occs))
        = enumOccurrences (dictSet [] n (Component.mk n r occs)) occs from rfl]
    rcases hc with rfl | hc
    · exact enumOccurrences_keys_mono _ occs _
        (by simp [dictSet, dictKeys, Component.name])
    · exact enumOccurrences_complete _ occs c hc

theorem enumOccurrences_complete (rv : PyDict Component) (occs : OccurrenceList) :
    ∀ c, c ∈ occs.reachList → c.name ∈ dictKeys (enumOccurrences rv occs) :=
  match occs with
  | OccurrenceList.nil => by intro c hc; simp [OccurrenceList.reachList] at hc
  | OccurrenceList.cons o rest => by
    intro c hc
    simp only [OccurrenceList.reachList, List.mem_append] at hc
    rcases hc with hc | hc
    · exact enumOccurrences_keys_mono _ rest _
        (mem_dictKeys_dictUpdate_right (enumOccurrence_complete o c hc))
    · exact enumOccurrences_complete _ rest c hc

theorem enumOccurrences_keys_mono (rv : PyDict Component) (occs : OccurrenceList) :
    ∀ x, x ∈ dictKeys rv → x ∈ dictKeys (enumOccurrences rv occs) :=
  match occs with
  | OccurrenceList.nil => fun _ h => h
  | OccurrenceList.cons _ rest => fun x h =>
    enumOccurrences_keys_mono _ rest x (mem_dictKeys_dictUpdate_left _ h)
end

theorem recursiveEnumerateComponents_nodup (root : OccOrComponent) :
    (dictKeys (recursiveEnumerateComponents root)).Nodup := by
  cases root with
  | comp c =>
    obtain ⟨n, r, occs⟩ := c
    exact enumOccurrences_nodup _ occs (dictKeys_dictSet_nodup _ _ _ (by simp [dictKeys]))
  | occ o => exact enumOccurrence_nodup o

theorem recursiveEnumerateComponents_entries (root : OccOrComponent) :
    ∀ k c, (k, c) ∈ recursiveEnumerateComponents root →
      k = c.name ∧ c ∈ rootReach root := by
  cases root with
  | comp c =>
    obtain ⟨n, r, occs⟩ := c
    intro k c hmem
    rcases enumOccurrences_entries _ occs k c hmem with h | h
    · simp only [dictSet, List.mem_singleton, Prod.mk.injEq] at h
      refine ⟨by simp [h.1, h.2, Component.name], ?_⟩
      simp [rootReach, Component.reachList, h.2]
    · refine ⟨h.1, ?_⟩
      simp only [rootReach, Component.reachList, List.mem_cons]
      exact Or.inr h.2
  | occ o => exact fun k c h => enumOccurrence_entries o k c h

theorem recursiveEnumerateComponents_complete (root : OccOrComponent) :
    ∀ c, c ∈ rootReach root →
      c.name ∈ dictKeys (recursiveEnumerateComponents root) := by
  cases root with
  | comp c =>
    obtain ⟨n, r, occs⟩ := c
    intro c hc
    simp only [rootReach, Component.reachList, List.mem_cons] at hc
    rcases hc with rfl | hc
    · exact enumOccurrences_keys_mono _ occs _ (by simp [dictSet, dictKeys, Component.name])
    · exact enumOccurrences_complete _ occs c hc
  | occ o => exact fun c h => enumOccurrence_complete o c h

/-- **C4.** Applied to any root occurrence or component,
`recursiveEnumerateComponents` returns a dictionary keyed by component name
that contains the root's component and every component reachable through the
child-occurrence hierarchy, each name appearing exactly once, however many
occurrences of a component exist.  (Component names are unique within a
Fusion design; the hypothesis records that the reachable components are
distinguished by name.) -/
theorem recursiveEnumerateComponents_spec (root : OccOrComponent)
    (hinj : ∀ c1 ∈ rootReach root, ∀ c2 ∈ rootReach root,
      Component.name c1 = Component.name c2 → c1 = c2) :
    (dictKeys (recursiveEnumerateComponents root)).Nodup
    ∧ (∀ k c, (k, c) ∈ recursiveEnumerateComponents root → k = Component.name c)
    ∧ (∀ c, c ∈ rootReach root →
        dictGet? (recursiveEnumerateComponents root) (Component.name c) = some c) := by
  refine ⟨recursiveEnumerateComponents_nodup root,
    fun k c h => (recursiveEnumerateComponents_entries root k c h).1, ?_⟩
  intro c hc
  have hk : c.name ∈ dictKeys (recursiveEnumerateComponents root) :=
    recursiveEnumerateComponents_complete root c hc
  rcases Option.isSome_iff_exists.mp ((dictGet?_isSome_iff_mem_keys _ _).mpr hk) with ⟨v, hv⟩
  have hmem := dictGet?_eq_some_mem hv
  rcases recursiveEnumerateComponents_entries root _ _ hmem with ⟨hname, hreach⟩
  have : v = c := hinj v hreach c hc hname.symm
  rw [hv, this]

/-- Witness for C4: a two-level assembly whose component names are distinct. -/
def witnessLeafC4 : Component := Component.mk "Leaf" "r2" OccurrenceList.nil

/-- The root component of the C4 witness assembly. -/
def witnessRootC4 : Component :=
  Component.mk "Root" "r1"
    (OccurrenceList.cons (Occurrence.mk "Leaf:1" witnessLeafC4) OccurrenceList.nil)

theorem recursiveEnumerateComponents_spec_witness :
    (dictKeys (recursiveEnumerateComponents (OccOrComponent.comp witnessRootC4))).Nodup
    ∧ (∀ k c, (k, c) ∈ recursiveEnumerateComponents (OccOrComponent.comp witnessRootC4) →
        k = Component.name c)
    ∧ (∀ c, c ∈ rootReach (OccOrComponent.comp witnessRootC4) →
        dictGet? (recursiveEnumerateComponents (OccOrComponent.comp witnessRootC4))
          (Component.name c) = some c) :=
  recursiveEnumerateComponents_spec (OccOrComponent.comp witnessRootC4) (by
    intro c1 h1 c2 h2 hn
    simp only [rootReach, witnessRootC4, witnessLeafC4, Component.reachList,
      OccurrenceList.reachList, Occurrence.reachList, List.mem_cons, List.mem_append,
      List.mem_singleton, List.not_mem_nil, or_false, List.append_nil] at h1 h2
    rcases h1 with rfl | rfl <;> rcases h2 with rfl | rfl <;>
      simp_all [Component.name])

-- ===== Claims C8, C9, C10 =====

/-- **C8.** The round trip `emit_file` → `parse_file` cannot even start:
`to_dict` reads `self.orientation`, an attribute the dataclass does not have,
so emitting any config with at least one component raises `AttributeError`.
This theorem evaluates `emit_file` at the failing input. -/
theorem emit_file_attribute_error :
    emit_file { fmt := some "stl",
                components := [{ name := some "a", «to» := some "a" }] }
      = Except.error "AttributeError: ComponentExportConfig object has no attribute orientation"
    ∧ ComponentExportConfig.to_dict { name := some "a", «to» := some "a" }
      = Except.error "AttributeError: ComponentExportConfig object has no attribute orientation" :=
  ⟨rfl, rfl⟩

/-- Is an `Except` value a success? -/
def exOk {ε α : Type} : Except ε α → Bool
  | Except.ok _ => true
  | Except.error _ => false

/-- **C9 counterexample.** A config file whose `"v"` field is the JSON value
`true` — which differs from `1` — is accepted without error, because the
source coerces with `int(obj.get("v", 0))` and `int(True) == 1`. -/
theorem parse_file_accepts_bool_version :
    parse_file (JValue.obj [("v", JValue.bool true)]) "mtime" none
      = Except.ok { fmt := none, components := [], modified := some "mtime" }
    ∧ JValue.bool true ≠ JValue.int 1 :=
  ⟨rfl, fun h => JValue.noConfusion h⟩

theorem applyCountDefault_none (cmp : ComponentExportConfig) :
    applyCountDefault none cmp = cmp := by
  unfold applyCountDefault
  cases cmp.count <;> rfl

theorem parseComponentsList_counts (counts : Option (PyDict Int)) (items : List JValue) :
    parseComponentsList counts items =
      Except.map (List.map (applyCountDefault counts)) (parseComponentsList none items) := by
  induction items with
  | nil => rfl
  | cons item rest ih =>
    cases item with
    | obj d =>
      show Except.bind _ _ = Except.map _ (Except.bind _ _)
      cases componentFromDict d with
      | error e => rfl
      | ok raw =>
        simp only [Except.map, Except.bind, applyCountDefault_none]
        rw [show parseComponentsList counts rest
            = Except.map (List.map (applyCountDefault counts)) (parseComponentsList none rest) from ih]
        cases parseComponentsList none rest with
        | error e => rfl
        | ok cs => rfl
    | null => rfl
    | bool b => rfl
    | int n => rfl
    | str w => rfl
    | arr xs => rfl

theorem parseComponentsField_counts (counts : Option (PyDict Int)) (v : Option JValue) :
    parseComponentsField counts v =
      Except.map (List.map (applyCountDefault counts)) (parseComponentsField none v) := by
  match v with
  | none => rfl
  | some (JValue.arr items) => exact parseComponentsList_counts counts items
  | some JValue.null => rfl
  | some (JValue.bool b) => rfl
  | some (JValue.int n) => rfl
  | some (JValue.str w) => rfl
  | some (JValue.obj fs) => rfl

theorem applyCountDefault_law (counts : Option (PyDict Int)) (raw : ComponentExportConfig) :
    (applyCountDefault counts raw).name = raw.name ∧
    (applyCountDefault counts raw).«to» = raw.«to» ∧
    (applyCountDefault counts raw).up = raw.up ∧
    (applyCountDefault counts raw).fmt = raw.fmt ∧
    (applyCountDefault counts raw).count =
      (match raw.count, counts with
       | some n, _ => some n
       | none, none => none
       | none, some cd => some (match raw.name with
           | some nm => dictGetD cd nm 1
           | none => 1)) := by
  unfold applyCountDefault
  cases hc : raw.count <;> cases counts <;> simp [hc]

/-- **C9 (amended).** `parse_file` raises exactly when the `int()` coercion of
the `"v"` field (defaulting to `0` when absent) does not yield `1` — so JSON
values such as `true` that coerce to `1` are accepted, not only the literal
`1`.  When accepted, it returns the components listed in the file, each
component's count defaulting to the counts dictionary's value (or `1`) only
when the file does not specify a count and a counts dictionary is provided.
(The typing hypotheses say the `fmt` and `components` fields themselves are
well-formed, isolating the version check.) -/
theorem parse_file_version_coercion
    (fields : List (String × JValue)) (mtime : String) (counts : Option (PyDict Int))
    (hfmt : exOk (jStrField? (dictGet? fields "fmt")) = true)
    (hcomps : exOk (parseComponentsField none (dictGet? fields "components")) = true) :
    (exOk (parse_file (JValue.obj fields) mtime counts) = true ↔
      pyInt ((dictGet? fields "v").getD (JValue.int 0)) = Except.ok 1)
    ∧ (∀ cfg, parse_file (JValue.obj fields) mtime counts = Except.ok cfg →
        ∃ raws, parseComponentsField none (dictGet? fields "components") = Except.ok raws ∧
          cfg.components = raws.map (applyCountDefault counts) ∧
          ∀ raw ∈ raws,
            (applyCountDefault counts raw).name = raw.name ∧
            (applyCountDefault counts raw).«to» = raw.«to» ∧
            (applyCountDefault counts raw).up = raw.up ∧
            (applyCountDefault counts raw).fmt = raw.fmt ∧
            (applyCountDefault counts raw).count =
              (match raw.count, counts with
               | some n, _ => some n
               | none, none => none
               | none, some cd => some (match raw.name with
                   | some nm => dictGetD cd nm 1
                   | none => 1))) := by
  rcases hraws : parseComponentsField none (dictGet? fields "components") with e | raws
  · rw [hraws] at hcomps; exact absurd hcomps (by simp [exOk])
  rcases hf : jStrField? (dictGet? fields "fmt") with e | fmtv
  · rw [hf] at hfmt; exact absurd hfmt (by simp [exOk])
  have hparse_err : ∀ e, pyInt ((dictGet? fields "v").getD (JValue.int 0)) = Except.error e →
      parse_file (JValue.obj fields) mtime counts = Except.error e := by
    intro e hv
    show Except.bind _ _ = _
    rw [hv]
    rfl
  have hparse_bad : ∀ version, pyInt ((dictGet? fields "v").getD (JValue.int 0)) = Except.ok version →
      version ≠ 1 →
      parse_file (JValue.obj fields) mtime counts =
        Except.error ("AssertionError: Unknown version " ++ toString version) := by
    intro version hv h1
    show Except.bind _ _ = _
    rw [hv]
    show (if (version != 1) = true then _ else _) = _
    rw [if_pos (by simp [bne_iff_ne, h1])]
    rfl
  have hparse_one : pyInt ((dictGet? fields "v").getD (JValue.int 0)) = Except.ok 1 →
      parse_file (JValue.obj fields) mtime counts =
        Except.ok ({ fmt := fmtv, components := raws.map (applyCountDefault counts),
                     modified := some mtime } : ExportConfig) := by
    intro hv
    show Except.bind _ _ = _
    rw [hv]
    show Except.bind (jStrField? (dictGet? fields "fmt")) _ = _
    rw [hf]
    show Except.bind (parseComponentsField counts (dictGet? fields "components")) _ = _
    rw [parseComponentsField_counts, hraws]
    rfl
  constructor
  · rcases hv : pyInt ((dictGet? fields "v").getD (JValue.int 0)) with e | version
    · rw [hparse_err e hv]
      simp [exOk, hv]
    · by_cases h1 : version = 1
      · subst h1
        rw [hparse_one hv]
        simp [exOk, hv]
      · rw [hparse_bad version hv h1]
        simp [exOk, h1]
  · intro cfg hcfg
    refine ⟨raws, rfl, ?_, fun raw _ => applyCountDefault_law counts raw⟩
    rcases hv : pyInt ((dictGet? fields "v").getD (JValue.int 0)) with e | version
    · rw [hparse_err e hv] at hcfg
      exact Except.noConfusion hcfg
    · by_cases h1 : version = 1
      · subst h1
        rw [hparse_one hv] at hcfg
        injection hcfg with h
        rw [← h]
      · rw [hparse_bad version hv h1] at hcfg
        exact Except.noConfusion hcfg

theorem parse_file_version_coercion_witness :
    (exOk (jStrField? (dictGet? ([("v", JValue.int 1),
        ("components", JValue.arr [JValue.obj [("name", JValue.str "a"),
          ("to", JValue.str "a")]])] : List (String × JValue)) "fmt")) = true)
    ∧ ((exOk (parse_file (JValue.obj [("v", JValue.int 1),
        ("components", JValue.arr [JValue.obj [("name", JValue.str "a"),
          ("to", JValue.str "a")]])]) "t" (some [("a", 3)])) = true ↔
      pyInt ((dictGet? ([("v", JValue.int 1),
        ("components", JValue.arr [JValue.obj [("name", JValue.str "a"),
          ("to", JValue.str "a")]])] : List (String × JValue)) "v").getD (JValue.int 0))
        = Except.ok 1)) :=
  ⟨rfl, (parse_file_version_coercion [("v", JValue.int 1),
      ("components", JValue.arr [JValue.obj [("name", JValue.str "a"),
        ("to", JValue.str "a")]])] "t" (some [("a", 3)]) rfl rfl).1⟩

/-- The number of direct occurrences of component `x` in an occurrence list. -/
def directCount : OccurrenceList → String → Int
  | OccurrenceList.nil, _ => 0
  | OccurrenceList.cons o rest, x =>
    (if o.component.name = x then 1 else 0) + directCount rest x

/-- The nested-contribution sum of the count formula C10 states: for each
occurrence of the list whose name ends in `":1"`, the component's count within
that sub-tree times the parent component's **direct** occurrence count in
`full`.  (This is the claim's formula, stated for comparison with
`recursiveCountOccurences`; it is *not* what the code computes.) -/
def claimedSum (x : String) (full : OccurrenceList) : OccurrenceList → Int
  | OccurrenceList.nil => 0
  | OccurrenceList.cons (Occurrence.mk onm (Component.mk cnm _ coccs)) rest =>
    (if pyEndsWith onm ":1" then
      (directCount coccs x + claimedSum x coccs coccs) * directCount full cnm
    else 0) + claimedSum x full rest

/-- The per-component count as claim C10 describes it: direct occurrences
plus, per `":1"` sub-tree, the child count times the parent's direct count. -/
def claimedCount (occurrences : OccurrenceList) (x : String) : Int :=
  directCount occurrences x + claimedSum x occurrences occurrences

/-- The C10 failing assembly: `Gear` is placed both at top level and inside
`Frame`, and `Pin` lives inside `Gear`. -/
def pinComponent : Component := Component.mk "Pin" "r3" OccurrenceList.nil

/-- `Gear` contains one `Pin`. -/
def gearComponent : Component :=
  Component.mk "Gear" "r2"
    (OccurrenceList.cons (Occurrence.mk "Pin:1" pinComponent) OccurrenceList.nil)

/-- `Frame` contains one `Gear`. -/
def frameComponent : Component :=
  Component.mk "Frame" "r1"
    (OccurrenceList.cons (Occurrence.mk "Gear:1" gearComponent) OccurrenceList.nil)

/-- The top-level occurrence list: one `Frame`, one `Gear`. -/
def bugOccurrenceList : OccurrenceList :=
  OccurrenceList.cons (Occurrence.mk "Frame:1" frameComponent)
    (OccurrenceList.cons (Occurrence.mk "Gear:1" gearComponent) OccurrenceList.nil)

/-- **C10.** Evaluation at the failing input: the true instance count of
`Pin` is 2 (one per `Gear` instance: directly under the root and inside
`Frame`), and the claim's formula gives 2, but `recursiveCountOccurences`
returns 3 — the merge for the top-level `Gear:1` multiplies by
`rv["Gear"]` as already inflated by the earlier `Frame:1` merge, not by
`Gear`'s direct occurrence count, double-counting the nested `Gear`'s pin. -/
theorem recursiveCountOccurences_overcounts :
    recursiveCountOccurences bugOccurrenceList = [("Frame", 1), ("Gear", 2), ("Pin", 3)]
    ∧ dictGetD (recursiveCountOccurences bugOccurrenceList) "Pin" 0 = 3
    ∧ claimedCount bugOccurrenceList "Pin" = 2
    ∧ directCount bugOccurrenceList "Pin" = 0 :=
  ⟨rfl, rfl, rfl, rfl⟩

-- ===== Step-level lemmas about the export loop =====

/-- What one loop iteration needs in order not to raise: a configured
basename, an effective format, and (when set) a valid orientation. -/
def upValidB : Option String → Bool
  | none => true
  | some u => u == "z" || VALID_ORIENTATIONS.contains u

/-- Per-component precondition for an iteration of `export` to succeed. -/
def stepOKb (main_cfg : ExportConfig) (cfg : ComponentExportConfig) : Bool :=
  cfg.«to».isSome && (effectiveExt main_cfg cfg).isSome && upValidB cfg.up

/-- The number of move features component `n` carries in state `st`. -/
def featureCount (st : ExportState) (n : String) : Int :=
  dictGetD st.moveFeatures n 0

/-- The file key an iteration would use (total form; equals the real key
whenever `stepOKb` holds). -/
def fileKeyD (main_cfg : ExportConfig) (cfg : ComponentExportConfig) : String :=
  mkFileKey (cfg.«to».getD "") ((effectiveExt main_cfg cfg).getD "")

/-- The skip decision of an iteration, as a function of the current state. -/
def skipCondB (main_cfg : ExportConfig) (cmp : Component) (filepath : String)
    (st : ExportState) (file_key : String) : Bool :=
  match dictGet? st.version_control file_key with
  | some old => skipB main_cfg cmp filepath st.disk old
  | none => false

theorem rotationNeeded_ok (u : Option String) (hup : upValidB u = true) :
    rotationNeeded u = Except.ok (rotB u) := by
  cases u with
  | none => rfl
  | some s =>
    simp only [upValidB, Bool.or_eq_true, beq_iff_eq] at hup
    by_cases hz : s = "z"
    · subst hz; rfl
    · rcases hup with hup | hup
      · exact absurd hup hz
      · have hb : (s != "z") = true := by simp [bne_iff_ne, hz]
        simp only [rotationNeeded, rotB, hb, if_true, hup]

theorem doExport_spec (env : ExportEnv) (i : Nat) (cfg : ComponentExportConfig)
    (cmp : Component) (file_key filepath : String) (st : ExportState)
    (hup : upValidB cfg.up = true) :
    ∃ st', doExport env i cfg cmp file_key filepath st = Except.ok (st', env.cancelled i)
      ∧ st'.version_control = dictSet st.version_control file_key (mkEntry env i cmp filepath)
      ∧ st'.disk = addFile st.disk filepath
      ∧ (∀ n, featureCount st' n = featureCount st n)
      ∧ st'.manifestFile = st.manifestFile
      ∧ st'.trace = st.trace ++
          [Event.exported i cmp.name file_key (mkEntry env i cmp filepath) (rotB cfg.up)] := by
  have hrn := rotationNeeded_ok cfg.up hup
  cases hrot : rotB cfg.up with
  | false =>
    cases hc : env.cancelled i with
    | true =>
      have heq : doExport env i cfg cmp file_key filepath st = Except.ok
          ({ st with
              version_control := dictSet st.version_control file_key (mkEntry env i cmp filepath),
              disk := addFile st.disk filepath,
              trace := st.trace ++ [Event.exported i cmp.name file_key (mkEntry env i cmp filepath) false] },
            true) := by
        show Except.bind _ _ = _
        rw [hrn, hrot, hc]
        rfl
      refine ⟨_, heq, ?_, ?_, ?_, ?_, ?_⟩
      · rfl
      · rfl
      · exact fun n => rfl
      · rfl
      · rfl
    | false =>
      have heq : doExport env i cfg cmp file_key filepath st = Except.ok
          ({ st with
              version_control := dictSet st.version_control file_key (mkEntry env i cmp filepath),
              disk := addFile st.disk filepath,
              progressValue := i + 1,
              trace := st.trace ++ [Event.exported i cmp.name file_key (mkEntry env i cmp filepath) false] },
            false) := by
        show Except.bind _ _ = _
        rw [hrn, hrot, hc]
        rfl
      refine ⟨_, heq, ?_, ?_, ?_, ?_, ?_⟩
      · rfl
      · rfl
      · exact fun n => rfl
      · rfl
      · rfl
  | true =>
    cases hc : env.cancelled i with
    | true =>
      have heq : doExport env i cfg cmp file_key filepath st = Except.ok
          ({ st with
              version_control := dictSet st.version_control file_key (mkEntry env i cmp filepath),
              moveFeatures := dictIncr (dictIncr st.moveFeatures cmp.name 1) cmp.name (-1),
              disk := addFile st.disk filepath,
              trace := st.trace ++ [Event.exported i cmp.name file_key (mkEntry env i cmp filepath) true] },
            true) := by
        show Except.bind _ _ = _
        rw [hrn, hrot, hc]
        rfl
      refine ⟨_, heq, ?_, ?_, ?_, ?_, ?_⟩
      · rfl
      · rfl
      · exact fun n => dictGetD_dictIncr_cancel st.moveFeatures cmp.name n
      · rfl
      · rfl
    | false =>
      have heq : doExport env i cfg cmp file_key filepath st = Except.ok
          ({ st with
              version_control := dictSet st.version_control file_key (mkEntry env i cmp filepath),
              moveFeatures := dictIncr (dictIncr st.moveFeatures cmp.name 1) cmp.name (-1),
              disk := addFile st.disk filepath,
              progressValue := i + 1,
              trace := st.trace ++ [Event.exported i cmp.name file_key (mkEntry env i cmp filepath) true] },
            false) := by
        show Except.bind _ _ = _
        rw [hrn, hrot, hc]
        rfl
      refine ⟨_, heq, ?_, ?_, ?_, ?_, ?_⟩
      · rfl
      · rfl
      · exact fun n => dictGetD_dictIncr_cancel st.moveFeatures cmp.name n
      · rfl
      · rfl

theorem mem_addFile (d : List String) (p : String) : p ∈ addFile d p := by
  unfold addFile
  by_cases h : d.contains p
  · rw [if_pos h]
    exact List.mem_of_elem_eq_true h
  · rw [if_neg h]
    exact List.mem_append_right _ (List.mem_singleton_self p)

theorem exportStep_red (env : ExportEnv) (main_cfg : ExportConfig) (output_dir : String)
    (i : Nat) (cfg : ComponentExportConfig) (cmp : Component) (st : ExportState)
    (file_to file_ext : String)
    (hto : cfg.«to» = some file_to) (hext : effectiveExt main_cfg cfg = some file_ext) :
    exportStep env main_cfg output_dir i cfg cmp st =
      match dictGet? st.version_control (mkFileKey file_to file_ext) with
      | some old_version =>
        if skipB main_cfg cmp (pathJoin output_dir (mkFileName file_to file_ext cfg.count))
            st.disk old_version then
          Except.ok ({ st with progressValue := i, trace := st.trace ++ [Event.skipped i cmp.name] }, false)
        else
          doExport env i cfg cmp (mkFileKey file_to file_ext)
            (pathJoin output_dir (mkFileName file_to file_ext cfg.count))
            (if (old_version.filename != pathJoin output_dir (mkFileName file_to file_ext cfg.count)) = true
             then { st with progressValue := i, disk := removeFile st.disk (pathJoin output_dir old_version.filename) }
             else { st with progressValue := i })
      | none =>
        doExport env i cfg cmp (mkFileKey file_to file_ext)
          (pathJoin output_dir (mkFileName file_to file_ext cfg.count))
          { st with progressValue := i } := by
  unfold exportStep
  rw [hto, hext]

theorem exportStep_skip (env : ExportEnv) (main_cfg : ExportConfig) (output_dir : String)
    (i : Nat) (cfg : ComponentExportConfig) (cmp : Component) (st : ExportState)
    (file_to file_ext : String)
    (hto : cfg.«to» = some file_to) (hext : effectiveExt main_cfg cfg = some file_ext)
    (hskip : skipCondB main_cfg cmp
      (pathJoin output_dir (mkFileName file_to file_ext cfg.count)) st
      (mkFileKey file_to file_ext) = true) :
    exportStep env main_cfg output_dir i cfg cmp st =
      Except.ok ({ st with progressValue := i, trace := st.trace ++ [Event.skipped i cmp.name] }, false) := by
  unfold skipCondB at hskip
  rw [exportStep_red env main_cfg output_dir i cfg cmp st file_to file_ext hto hext]
  cases hget : dictGet? st.version_control (mkFileKey file_to file_ext) with
  | none => rw [hget] at hskip; exact absurd hskip (by simp)
  | some old =>
    rw [hget] at hskip
    simp only [hget]
    rw [if_pos hskip]

theorem exportStep_export (env : ExportEnv) (main_cfg : ExportConfig) (output_dir : String)
    (i : Nat) (cfg : ComponentExportConfig) (cmp : Component) (st : ExportState)
    (file_to file_ext : String)
    (hto : cfg.«to» = some file_to) (hext : effectiveExt main_cfg cfg = some file_ext)
    (hup : upValidB cfg.up = true)
    (hskip : skipCondB main_cfg cmp
      (pathJoin output_dir (mkFileName file_to file_ext cfg.count)) st
      (mkFileKey file_to file_ext) = false) :
    ∃ st', exportStep env main_cfg output_dir i cfg cmp st = Except.ok (st', env.cancelled i)
      ∧ st'.version_control = dictSet st.version_control (mkFileKey file_to file_ext)
          (mkEntry env i cmp (pathJoin output_dir (mkFileName file_to file_ext cfg.count)))
      ∧ (∀ n, featureCount st' n = featureCount st n)
      ∧ st'.manifestFile = st.manifestFile
      ∧ pathJoin output_dir (mkFileName file_to file_ext cfg.count) ∈ st'.disk
      ∧ st'.trace = st.trace ++
          [Event.exported i cmp.name (mkFileKey file_to file_ext)
            (mkEntry env i cmp (pathJoin output_dir (mkFileName file_to file_ext cfg.count)))
            (rotB cfg.up)] := by
  unfold skipCondB at hskip
  rw [exportStep_red env main_cfg output_dir i cfg cmp st file_to file_ext hto hext]
  cases hget : dictGet? st.version_control (mkFileKey file_to file_ext) with
  | none =>
    simp only [hget]
    rcases doExport_spec env i cfg cmp (mkFileKey file_to file_ext)
        (pathJoin output_dir (mkFileName file_to file_ext cfg.count))
        { st with progressValue := i } hup with
      ⟨st', heq, hvc, hdisk, hfeat, hmani, htrace⟩
    refine ⟨st', heq, hvc, hfeat, hmani, ?_, htrace⟩
    rw [hdisk]
    exact mem_addFile _ _
  | some old =>
    simp only [hget] at hskip
    simp only [hget]
    rw [if_neg (by simp [hskip])]
    cases hfn : (old.filename != pathJoin output_dir (mkFileName file_to file_ext cfg.count)) with
    | true =>
      rcases doExport_spec env i cfg cmp (mkFileKey file_to file_ext)
          (pathJoin output_dir (mkFileName file_to file_ext cfg.count))
          { st with progressValue := i, disk := removeFile st.disk (pathJoin output_dir old.filename) } hup with
        ⟨st', heq, hvc, hdisk, hfeat, hmani, htrace⟩
      refine ⟨st', heq, hvc, hfeat, hmani, ?_, htrace⟩
      rw [hdisk]
      exact mem_addFile _ _
    | false =>
      rcases doExport_spec env i cfg cmp (mkFileKey file_to file_ext)
          (pathJoin output_dir (mkFileName file_to file_ext cfg.count))
          { st with progressValue := i } hup with
        ⟨st', heq, hvc, hdisk, hfeat, hmani, htrace⟩
      refine ⟨st', heq, hvc, hfeat, hmani, ?_, htrace⟩
      rw [hdisk]
      exact mem_addFile _ _

theorem contains_iff_mem (d : List String) (p : String) : d.contains p = true ↔ p ∈ d :=
  ⟨List.mem_of_elem_eq_true, List.elem_eq_true_of_mem⟩

/-- The skip condition exactly as claim C1 words it: a manifest entry exists
under the file key, its recorded component name and revisionId match the
component, the target file exists on disk, and the config's `modified`
timestamp is set with the entry's `changed` strictly before it. -/
def SkipCond (main_cfg : ExportConfig) (cmp : Component) (filepath : String)
    (st : ExportState) (file_key : String) : Prop :=
  ∃ old, dictGet? st.version_control file_key = some old ∧
    old.component = cmp.name ∧ old.revisionId = cmp.revisionId ∧
    filepath ∈ st.disk ∧ ∃ m, main_cfg.modified = some m ∧ pyStrLt old.changed m = true

theorem skipCondB_iff (main_cfg : ExportConfig) (cmp : Component) (filepath : String)
    (st : ExportState) (file_key : String) :
    skipCondB main_cfg cmp filepath st file_key = true ↔
      SkipCond main_cfg cmp filepath st file_key := by
  unfold skipCondB SkipCond
  cases hget : dictGet? st.version_control file_key with
  | none => simp
  | some old =>
    simp only [Option.some.injEq]
    constructor
    · intro hb
      refine ⟨old, rfl, ?_⟩
      simp only [skipB, Bool.and_eq_true, beq_iff_eq] at hb
      obtain ⟨⟨⟨h1, h2⟩, h3⟩, h4⟩ := hb
      refine ⟨h1, h2, (contains_iff_mem _ _).mp h3, ?_⟩
      cases hm : main_cfg.modified with
      | none => rw [hm] at h4; exact absurd h4 (by simp)
      | some m => rw [hm] at h4; exact ⟨m, rfl, h4⟩
    · rintro ⟨old', hol, h1, h2, h3, m, hm, h4⟩
      obtain rfl : old = old' := hol.symm ▸ rfl
      simp only [skipB, Bool.and_eq_true, beq_iff_eq]
      exact ⟨⟨⟨h1, h2⟩, (contains_iff_mem _ _).mpr h3⟩, by rw [hm]; exact h4⟩

/-- **C1.** Inside `export`'s loop, a configured component is skipped — no
mesh export performed, the disk and its manifest entry left unchanged — if
and only if the manifest already holds an entry under its file key whose
recorded component name equals the component's name, whose revisionId equals
the component's current revisionId, the target file exists on disk, and the
config's `modified` timestamp is set with the entry's `changed` strictly
earlier; otherwise the component is exported and its manifest entry
rewritten. -/
theorem export_skip_iff (env : ExportEnv) (main_cfg : ExportConfig) (output_dir : String)
    (i : Nat) (cfg : ComponentExportConfig) (cmp : Component) (st : ExportState)
    (file_to file_ext : String)
    (hto : cfg.«to» = some file_to) (hext : effectiveExt main_cfg cfg = some file_ext)
    (hup : upValidB cfg.up = true) :
    ∃ st' brk, exportStep env main_cfg output_dir i cfg cmp st = Except.ok (st', brk)
      ∧ (SkipCond main_cfg cmp (pathJoin output_dir (mkFileName file_to file_ext cfg.count))
            st (mkFileKey file_to file_ext) ↔
          (st'.version_control = st.version_control ∧ st'.disk = st.disk ∧
           st'.trace = st.trace ++ [Event.skipped i cmp.name]))
      ∧ (¬ SkipCond main_cfg cmp (pathJoin output_dir (mkFileName file_to file_ext cfg.count))
            st (mkFileKey file_to file_ext) →
          dictGet? st'.version_control (mkFileKey file_to file_ext)
              = some (mkEntry env i cmp (pathJoin output_dir (mkFileName file_to file_ext cfg.count)))
            ∧ pathJoin output_dir (mkFileName file_to file_ext cfg.count) ∈ st'.disk
            ∧ st'.trace = st.trace ++
                [Event.exported i cmp.name (mkFileKey file_to file_ext)
                  (mkEntry env i cmp (pathJoin output_dir (mkFileName file_to file_ext cfg.count)))
                  (rotB cfg.up)]) := by
  by_cases hsk : skipCondB main_cfg cmp
      (pathJoin output_dir (mkFileName file_to file_ext cfg.count)) st
      (mkFileKey file_to file_ext) = true
  · have hcond := (skipCondB_iff _ _ _ _ _).mp hsk
    refine ⟨_, false, exportStep_skip env main_cfg output_dir i cfg cmp st
      file_to file_ext hto hext hsk, ?_, fun hns => absurd hcond hns⟩
    exact iff_of_true hcond ⟨rfl, rfl, rfl⟩
  · have hskf : skipCondB main_cfg cmp
        (pathJoin output_dir (mkFileName file_to file_ext cfg.count)) st
        (mkFileKey file_to file_ext) = false := Bool.eq_false_iff.mpr hsk
    have hcond : ¬ SkipCond main_cfg cmp
        (pathJoin output_dir (mkFileName file_to file_ext cfg.count)) st
        (mkFileKey file_to file_ext) := fun h => hsk ((skipCondB_iff _ _ _ _ _).mpr h)
    rcases exportStep_export env main_cfg output_dir i cfg cmp st file_to file_ext
        hto hext hup hskf with ⟨st', heq, hvc, hfeat, hmani, hdisk, htrace⟩
    refine ⟨st', env.cancelled i, heq, ?_, fun _ => ⟨?_, hdisk, htrace⟩⟩
    · refine iff_of_false hcond ?_
      rintro ⟨-, -, htr⟩
      rw [htrace] at htr
      have := List.append_cancel_left htr
      simp at this
    · rw [hvc]
      exact dictGet?_dictSet_self _ _ _

/-- Shared concrete fixture: a one-component assembly and config. -/
def witnessEnv : ExportEnv :=
  { now := fun _ => "2025", cancelled := fun _ => false, rootCompName := "Root" }

/-- Fixture component config (`name="Part"`, `to="part"`). -/
def witnessCfg : ComponentExportConfig := { name := some "Part", «to» := some "part" }

/-- Fixture export config. -/
def witnessMain : ExportConfig :=
  { fmt := some "stl", components := [witnessCfg], modified := some "2024" }

/-- Fixture component. -/
def witnessCmp : Component := Component.mk "Part" "rev1" OccurrenceList.nil

/-- Fixture empty starting state. -/
def witnessState0 : ExportState :=
  { version_control := [], disk := [], moveFeatures := [],
    manifestFile := none, progressValue := 0, trace := [] }

/-- Fixture empty filesystem. -/
def witnessFS : FS := { manifestFile := none, disk := [], moveFeatures := [] }

theorem export_skip_iff_witness :
    ∃ st' brk, exportStep witnessEnv witnessMain "out" 0 witnessCfg witnessCmp witnessState0
        = Except.ok (st', brk)
      ∧ (SkipCond witnessMain witnessCmp (pathJoin "out" (mkFileName "part" "stl" none))
            witnessState0 (mkFileKey "part" "stl") ↔
          (st'.version_control = witnessState0.version_control
           ∧ st'.disk = witnessState0.disk
           ∧ st'.trace = witnessState0.trace ++ [Event.skipped 0 witnessCmp.name]))
      ∧ (¬ SkipCond witnessMain witnessCmp (pathJoin "out" (mkFileName "part" "stl" none))
            witnessState0 (mkFileKey "part" "stl") →
          dictGet? st'.version_control (mkFileKey "part" "stl")
              = some (mkEntry witnessEnv 0 witnessCmp (pathJoin "out" (mkFileName "part" "stl" none)))
            ∧ pathJoin "out" (mkFileName "part" "stl" none) ∈ st'.disk
            ∧ st'.trace = witnessState0.trace ++
                [Event.exported 0 witnessCmp.name (mkFileKey "part" "stl")
                  (mkEntry witnessEnv 0 witnessCmp (pathJoin "out" (mkFileName "part" "stl" none)))
                  (rotB witnessCfg.up)]) :=
  export_skip_iff witnessEnv witnessMain "out" 0 witnessCfg witnessCmp witnessState0
    "part" "stl" rfl rfl rfl

/-- The iteration index an event was recorded at (the progress value the
dialog showed for it). -/
def Event.idx : Event → Nat
  | Event.skipped i _ => i
  | Event.exported i _ _ _ _ => i

/-- The component name an event concerns. -/
def Event.cname : Event → String
  | Event.skipped _ n => n
  | Event.exported _ n _ _ _ => n

/-- What the event of iteration `idx` over the selected pair `p` must look
like: a skip or an export of `p`'s component, with the export's key, entry
and rotation flag determined by `p`'s configuration. -/
def eventMatches (env : ExportEnv) (main_cfg : ExportConfig) (output_dir : String)
    (idx : Nat) (p : ComponentExportConfig × Component) : Event → Prop
  | Event.skipped j n => j = idx ∧ n = p.2.name
  | Event.exported j n k e rot => j = idx ∧ n = p.2.name ∧
      ∃ t x, p.1.«to» = some t ∧ effectiveExt main_cfg p.1 = some x ∧
        k = mkFileKey t x ∧
        e = mkEntry env idx p.2 (pathJoin output_dir (mkFileName t x p.1.count)) ∧
        rot = rotB p.1.up

theorem getLast?_cons_of_getLast? {α : Type} {l : List α} {a x : α}
    (h : l.getLast? = some x) : (a :: l).getLast? = some x := by
  cases l with
  | nil => simp at h
  | cons b l' => rw [List.getLast?_cons_cons]; exact h

theorem exportLoop_spec (env : ExportEnv) (main_cfg : ExportConfig) (output_dir : String) :
    ∀ (comps : List (ComponentExportConfig × Component)) (i : Nat) (st : ExportState),
    (∀ p ∈ comps, stepOKb main_cfg p.1 = true) →
    ∃ st' tr, exportLoop env main_cfg output_dir i comps st = Except.ok st'
      ∧ st'.trace = st.trace ++ tr
      ∧ tr.length ≤ comps.length
      ∧ (∀ j ev, tr.get? j = some ev →
          ∃ p, comps.get? j = some p ∧ eventMatches env main_cfg output_dir (i + j) p ev)
      ∧ (tr.length = comps.length ∨
          ∃ jn nm k e rot, tr.getLast? = some (Event.exported jn nm k e rot) ∧
            env.cancelled jn = true ∧ jn + 1 = i + tr.length)
      ∧ ((∀ j, j < comps.length → env.cancelled (i + j) = false) → tr.length = comps.length)
      ∧ (∀ n, featureCount st' n = featureCount st n)
      ∧ st'.manifestFile = st.manifestFile
      ∧ (∀ k, (∀ jn nm e rot, Event.exported jn nm k e rot ∉ tr) →
          dictGet? st'.version_control k = dictGet? st.version_control k)
      ∧ (∀ k e, (k, e) ∈ st'.version_control → (k, e) ∈ st.version_control ∨
          ∃ jn nm rot, Event.exported jn nm k e rot ∈ tr)
      ∧ ((comps.map (fun p => fileKeyD main_cfg p.1)).Nodup →
          ∀ jn nm k e rot, Event.exported jn nm k e rot ∈ tr →
            dictGet? st'.version_control k = some e) := by
  intro comps
  induction comps with
  | nil =>
    intro i st _
    refine ⟨st, [], rfl, (List.append_nil _).symm, Nat.le_refl 0, ?_, Or.inl rfl,
      fun _ => rfl, fun n => rfl, rfl, fun k _ => rfl, fun k e h => Or.inl h, ?_⟩
    · intro j ev h; simp at h
    · intro _ jn nm k e rot h; simp at h
  | cons hd rest ih =>
    obtain ⟨cfg, cmp⟩ := hd
    intro i st hOK
    have hOKhd := hOK (cfg, cmp) (List.mem_cons_self _ _)
    have hOKrest : ∀ p ∈ rest, stepOKb main_cfg p.1 = true :=
      fun p hp => hOK p (List.mem_cons_of_mem _ hp)
    simp only [stepOKb, Bool.and_eq_true] at hOKhd
    obtain ⟨⟨hto0, hext0⟩, hup⟩ := hOKhd
    obtain ⟨file_to, hto⟩ := Option.isSome_iff_exists.mp hto0
    obtain ⟨file_ext, hext⟩ := Option.isSome_iff_exists.mp hext0
    have hkeyD : fileKeyD main_cfg cfg = mkFileKey file_to file_ext := by
      unfold fileKeyD
      rw [hto, hext]
      rfl
    by_cases hsk : skipCondB main_cfg cmp
        (pathJoin output_dir (mkFileName file_to file_ext cfg.count)) st
        (mkFileKey file_to file_ext) = true
    · -- the head component is skipped; the loop continues with the same state
      have hstep := exportStep_skip env main_cfg output_dir i cfg cmp st
        file_to file_ext hto hext hsk
      have hloop : exportLoop env main_cfg output_dir i ((cfg, cmp) :: rest) st =
          exportLoop env main_cfg output_dir (i + 1) rest
            { st with progressValue := i, trace := st.trace ++ [Event.skipped i cmp.name] } := by
        show (match exportStep env main_cfg output_dir i cfg cmp st with
          | Except.error e => Except.error e
          | Except.ok (st', true) => Except.ok st'
          | Except.ok (st', false) => exportLoop env main_cfg output_dir (i + 1) rest st') = _
        rw [hstep]
      rcases ih (i + 1)
          { st with progressValue := i, trace := st.trace ++ [Event.skipped i cmp.name] }
          hOKrest with
        ⟨st', tr', hrun, htr, hlen, hcorr, hbrk, hfull, hfeat, hmani, hframe, hprov, hfinal⟩
      refine ⟨st', Event.skipped i cmp.name :: tr', by rw [hloop]; exact hrun, ?_, ?_, ?_,
        ?_, ?_, hfeat, hmani, ?_, ?_, ?_⟩
      · rw [htr]
        simp
      · simpa using Nat.succ_le_succ hlen
      · intro j ev hj
        cases j with
        | zero =>
          refine ⟨(cfg, cmp), rfl, ?_⟩
          obtain rfl : Event.skipped i cmp.name = ev := by simpa using hj
          exact ⟨by omega, rfl⟩
        | succ j' =>
          rcases hcorr j' ev (by simpa using hj) with ⟨p, hp, hm⟩
          exact ⟨p, by simpa using hp, by rw [show i + (j' + 1) = i + 1 + j' by omega]; exact hm⟩
      · rcases hbrk with h | ⟨jn, nm, k, e, rot, hlast, hc, hidx⟩
        · exact Or.inl (by simp [h])
        · exact Or.inr ⟨jn, nm, k, e, rot, getLast?_cons_of_getLast? hlast, hc, by
            simp only [List.length_cons]; omega⟩
      · intro hnc
        have : tr'.length = rest.length := hfull (fun j hj => by
          rw [show i + 1 + j = i + (j + 1) by omega]
          exact hnc (j + 1) (by simpa using Nat.succ_lt_succ hj))
        simp [this]
      · intro k hk
        exact hframe k (fun jn nm e rot h => hk jn nm e rot (List.mem_cons_of_mem _ h))
      · intro k e hmem
        rcases hprov k e hmem with h | ⟨jn, nm, rot, h⟩
        · exact Or.inl h
        · exact Or.inr ⟨jn, nm, rot, List.mem_cons_of_mem _ h⟩
      · intro hnd jn nm k e rot hmem
        have hndr : (rest.map (fun p => fileKeyD main_cfg p.1)).Nodup := by
          simpa using (List.nodup_cons.mp (by simpa using hnd)).2
        rcases List.mem_cons.mp hmem with h | h
        · exact absurd h (by simp)
        · exact hfinal hndr jn nm k e rot h
    · -- the head component is exported
      have hskf : skipCondB main_cfg cmp
          (pathJoin output_dir (mkFileName file_to file_ext cfg.count)) st
          (mkFileKey file_to file_ext) = false := Bool.eq_false_iff.mpr hsk
      rcases exportStep_export env main_cfg output_dir i cfg cmp st file_to file_ext
          hto hext hup hskf with ⟨st1, hstep, hvc1, hfeat1, hmani1, hdisk1, htr1⟩
      cases hc : env.cancelled i with
      | true =>
        -- cancel pressed: the loop breaks right after this component
        have hloop : exportLoop env main_cfg output_dir i ((cfg, cmp) :: rest) st =
            Except.ok st1 := by
          show (match exportStep env main_cfg output_dir i cfg cmp st with
            | Except.error e => Except.error e
            | Except.ok (st', true) => Except.ok st'
            | Except.ok (st', false) => exportLoop env main_cfg output_dir (i + 1) rest st') = _
          rw [hstep, hc]
        refine ⟨st1,
          [Event.exported i cmp.name (mkFileKey file_to file_ext)
            (mkEntry env i cmp (pathJoin output_dir (mkFileName file_to file_ext cfg.count)))
            (rotB cfg.up)],
          hloop, htr1, by simp, ?_, ?_, ?_, hfeat1, hmani1, ?_, ?_, ?_⟩
        · intro j ev hj
          cases j with
          | zero =>
            refine ⟨(cfg, cmp), rfl, ?_⟩
            obtain rfl : _ = ev := by simpa using hj
            exact ⟨by omega, rfl, file_to, file_ext, hto, hext, rfl, by
              rw [Nat.add_zero], rfl⟩
          | succ j' => simp at hj
        · exact Or.inr ⟨i, cmp.name, mkFileKey file_to file_ext, _, rotB cfg.up, rfl, hc, by simp⟩
        · intro hnc
          have h0 : env.cancelled i = false := by simpa using hnc 0 (by simp)
          rw [h0] at hc
          exact Bool.noConfusion hc
        · intro k hk
          have hkne : k ≠ mkFileKey file_to file_ext := by
            intro heqk
            exact hk i cmp.name
              (mkEntry env i cmp (pathJoin output_dir (mkFileName file_to file_ext cfg.count)))
              (rotB cfg.up) (by rw [heqk]; exact List.mem_singleton_self _)
          rw [hvc1, dictGet?_dictSet_ne _ _ _ _ hkne]
        · intro k e hmem
          rw [hvc1] at hmem
          rcases mem_dictSet hmem with h | ⟨rfl, rfl⟩
          · exact Or.inl h
          · exact Or.inr ⟨i, cmp.name, rotB cfg.up, List.mem_singleton_self _⟩
        · intro _ jn nm k e rot hmem
          obtain ⟨h1, h2, h3, h4, h5⟩ : jn = i ∧ nm = cmp.name ∧ k = mkFileKey file_to file_ext
              ∧ e = mkEntry env i cmp (pathJoin output_dir (mkFileName file_to file_ext cfg.count))
              ∧ rot = rotB cfg.up := by simpa using hmem
          subst h3; subst h4
          rw [hvc1]
          exact dictGet?_dictSet_self _ _ _
      | false =>
        -- not cancelled: continue with the rest
        have hloop : exportLoop env main_cfg output_dir i ((cfg, cmp) :: rest) st =
            exportLoop env main_cfg output_dir (i + 1) rest st1 := by
          show (match exportStep env main_cfg output_dir i cfg cmp st with
            | Except.error e => Except.error e
            | Except.ok (st', true) => Except.ok st'
            | Except.ok (st', false) => exportLoop env main_cfg output_dir (i + 1) rest st') = _
          rw [hstep, hc]
        rcases ih (i + 1) st1 hOKrest with
          ⟨st', tr', hrun, htr, hlen, hcorr, hbrk, hfull, hfeat, hmani, hframe, hprov, hfinal⟩
        refine ⟨st',
          Event.exported i cmp.name (mkFileKey file_to file_ext)
            (mkEntry env i cmp (pathJoin output_dir (mkFileName file_to file_ext cfg.count)))
            (rotB cfg.up) :: tr',
          by rw [hloop]; exact hrun, ?_, ?_, ?_, ?_, ?_,
          fun n => (hfeat n).trans (hfeat1 n), hmani.trans hmani1, ?_, ?_, ?_⟩
        · rw [htr, htr1]
          simp
        · simpa using Nat.succ_le_succ hlen
        · intro j ev hj
          cases j with
          | zero =>
            refine ⟨(cfg, cmp), rfl, ?_⟩
            obtain rfl : _ = ev := by simpa using hj
            exact ⟨by omega, rfl, file_to, file_ext, hto, hext, rfl, by
              rw [Nat.add_zero], rfl⟩
          | succ j' =>
            rcases hcorr j' ev (by simpa using hj) with ⟨p, hp, hm⟩
            exact ⟨p, by simpa using hp, by rw [show i + (j' + 1) = i + 1 + j' by omega]; exact hm⟩
        · rcases hbrk with h | ⟨jn, nm, k, e, rot, hlast, hcc, hidx⟩
          · exact Or.inl (by simp [h])
          · exact Or.inr ⟨jn, nm, k, e, rot, getLast?_cons_of_getLast? hlast, hcc, by
              simp only [List.length_cons]; omega⟩
        · intro hnc
          have : tr'.length = rest.length := hfull (fun j hj => by
            rw [show i + 1 + j = i + (j + 1) by omega]
            exact hnc (j + 1) (by simpa using Nat.succ_lt_succ hj))
          simp [this]
        · intro k hk
          have hkne : k ≠ mkFileKey file_to file_ext := by
            intro heqk
            exact hk i cmp.name
              (mkEntry env i cmp (pathJoin output_dir (mkFileName file_to file_ext cfg.count)))
              (rotB cfg.up) (by rw [heqk]; exact List.mem_cons_self _ _)
          have : dictGet? st'.version_control k = dictGet? st1.version_control k :=
            hframe k (fun jn nm e rot h => hk jn nm e rot (List.mem_cons_of_mem _ h))
          rw [this, hvc1, dictGet?_dictSet_ne _ _ _ _ hkne]
        · intro k e hmem
          rcases hprov k e hmem with h | ⟨jn, nm, rot, h⟩
          · rw [hvc1] at h
            rcases mem_dictSet h with h' | ⟨rfl, rfl⟩
            · exact Or.inl h'
            · exact Or.inr ⟨i, cmp.name, rotB cfg.up, List.mem_cons_self _ _⟩
          · exact Or.inr ⟨jn, nm, rot, List.mem_cons_of_mem _ h⟩
        · intro hnd jn nm k e rot hmem
          rw [List.map_cons, List.nodup_cons] at hnd
          rcases List.mem_cons.mp hmem with h | h
          · -- the head event's entry survives: no later iteration writes its key
            obtain ⟨h1, h2, h3, h4, h5⟩ : jn = i ∧ nm = cmp.name
                ∧ k = mkFileKey file_to file_ext
                ∧ e = mkEntry env i cmp (pathJoin output_dir (mkFileName file_to file_ext cfg.count))
                ∧ rot = rotB cfg.up := by simpa using h
            subst h3; subst h4
            have hnowrite : ∀ jn' nm' e' rot',
                Event.exported jn' nm' (mkFileKey file_to file_ext) e' rot' ∉ tr' := by
              intro jn' nm' e' rot' hmem'
              rcases List.get?_of_mem hmem' with ⟨j', hj'⟩
              rcases hcorr j' _ hj' with ⟨p, hp, hm⟩
              obtain ⟨-, -, t, x, hpt, hpx, hpk, -, -⟩ := hm
              have hkeyp : fileKeyD main_cfg p.1 = mkFileKey file_to file_ext := by
                unfold fileKeyD
                rw [hpt, hpx]
                exact hpk.symm
              have hpmem : fileKeyD main_cfg p.1 ∈ rest.map (fun p => fileKeyD main_cfg p.1) :=
                List.mem_map_of_mem _ (List.get?_mem hp)
              rw [hkeyp, ← hkeyD] at hpmem
              exact hnd.1 hpmem
            have : dictGet? st'.version_control (mkFileKey file_to file_ext)
                = dictGet? st1.version_control (mkFileKey file_to file_ext) :=
              hframe _ hnowrite
            rw [this, hvc1]
            exact dictGet?_dictSet_self _ _ _
          · exact hfinal hnd.2 jn nm k e rot h

theorem export'_spec (env : ExportEnv) (main_cfg : ExportConfig) (output_dir : String)
    (root : OccOrComponent) (fs : FS)
    (hOK : ∀ p ∈ selectedComponents main_cfg (recursiveEnumerateComponents root),
      stepOKb main_cfg p.1 = true) :
    ∃ stF, export' env main_cfg output_dir root fs = Except.ok stF
      ∧ stF.manifestFile = some stF.version_control
      ∧ stF.trace.length ≤ (selectedComponents main_cfg (recursiveEnumerateComponents root)).length
      ∧ (∀ j ev, stF.trace.get? j = some ev →
          ∃ p, (selectedComponents main_cfg (recursiveEnumerateComponents root)).get? j = some p
            ∧ eventMatches env main_cfg output_dir j p ev)
      ∧ (stF.trace.length = (selectedComponents main_cfg (recursiveEnumerateComponents root)).length
          ∨ ∃ jn nm k e rot, stF.trace.getLast? = some (Event.exported jn nm k e rot)
              ∧ env.cancelled jn = true ∧ jn + 1 = stF.trace.length)
      ∧ ((∀ j, j < (selectedComponents main_cfg (recursiveEnumerateComponents root)).length →
            env.cancelled j = false) →
          stF.trace.length = (selectedComponents main_cfg (recursiveEnumerateComponents root)).length)
      ∧ (∀ n, featureCount stF n = dictGetD fs.moveFeatures n 0)
      ∧ (∀ k, (∀ jn nm e rot, Event.exported jn nm k e rot ∉ stF.trace) →
          dictGet? stF.version_control k = dictGet? (fs.manifestFile.getD []) k)
      ∧ (∀ k e, (k, e) ∈ stF.version_control → (k, e) ∈ fs.manifestFile.getD [] ∨
          ∃ jn nm rot, Event.exported jn nm k e rot ∈ stF.trace)
      ∧ (((selectedComponents main_cfg (recursiveEnumerateComponents root)).map
            (fun p => fileKeyD main_cfg p.1)).Nodup →
          ∀ jn nm k e rot, Event.exported jn nm k e rot ∈ stF.trace →
            dictGet? stF.version_control k = some e) := by
  rcases exportLoop_spec env main_cfg output_dir
      (selectedComponents main_cfg (recursiveEnumerateComponents root)) 0
      { version_control := fs.manifestFile.getD [], disk := fs.disk,
        moveFeatures := fs.moveFeatures, manifestFile := fs.manifestFile,
        progressValue := 0, trace := [] } hOK with
    ⟨st', tr, hrun, htr, hlen, hcorr, hbrk, hfull, hfeat, hmani, hframe, hprov, hfinal⟩
  have htr' : st'.trace = tr := by simpa using htr
  have hexp0 : export' env main_cfg output_dir root fs =
      (match exportLoop env main_cfg output_dir 0
          (selectedComponents main_cfg (recursiveEnumerateComponents root))
          { version_control := fs.manifestFile.getD [], disk := fs.disk,
            moveFeatures := fs.moveFeatures, manifestFile := fs.manifestFile,
            progressValue := 0, trace := [] } with
        | Except.error e => Except.error e
        | Except.ok st => Except.ok { st with manifestFile := some st.version_control }) := rfl
  rw [hrun] at hexp0
  have hexp : export' env main_cfg output_dir root fs =
      Except.ok { st' with manifestFile := some st'.version_control } := hexp0
  refine ⟨{ st' with manifestFile := some st'.version_control }, hexp, rfl, ?_, ?_, ?_, ?_,
    ?_, ?_, ?_, ?_⟩
  · show st'.trace.length ≤ _
    rw [htr']
    exact hlen
  · show ∀ j ev, st'.trace.get? j = some ev → _
    rw [htr']
    intro j ev hj
    rcases hcorr j ev hj with ⟨p, hp, hm⟩
    rw [Nat.zero_add] at hm
    exact ⟨p, hp, hm⟩
  · show st'.trace.length = _ ∨ _
    rw [htr']
    rcases hbrk with h | ⟨jn, nm, k, e, rot, hlast, hc, hidx⟩
    · exact Or.inl h
    · exact Or.inr ⟨jn, nm, k, e, rot, hlast, hc, by omega⟩
  · show (∀ j, j < _ → env.cancelled j = false) → st'.trace.length = _
    rw [htr']
    intro hnc
    exact hfull (fun j hj => by rw [Nat.zero_add]; exact hnc j hj)
  · exact fun n => hfeat n
  · show ∀ k, (∀ jn nm e rot, Event.exported jn nm k e rot ∉ st'.trace) → _
    rw [htr']
    exact fun k hk => hframe k hk
  · show ∀ k e, (k, e) ∈ st'.version_control → _
    intro k e hmem
    rcases hprov k e hmem with h | ⟨jn, nm, rot, h⟩
    · exact Or.inl h
    · exact Or.inr ⟨jn, nm, rot, by rw [htr']; exact h⟩
  · show _ → ∀ jn nm k e rot, Event.exported jn nm k e rot ∈ st'.trace → _
    rw [htr']
    exact fun hnd jn nm k e rot h => hfinal hnd jn nm k e rot h

theorem selectedComponents_names (all : PyDict Component) :
    ∀ l : List ComponentExportConfig,
      ((l.filterMap (fun cfg => (cfg.name.bind (dictGet? all)).map (fun c => (cfg, c)))).map
          Prod.fst)
        = l.filter (fun cfg => match cfg.name with
            | some n => (dictGet? all n).isSome
            | none => false) := by
  intro l
  induction l with
  | nil => rfl
  | cons cfg rest ih =>
    cases hn : cfg.name with
    | none => simpa [List.filterMap_cons, List.filter_cons, hn] using ih
    | some n =>
      cases hg : dictGet? all n with
      | none => simpa [List.filterMap_cons, List.filter_cons, hn, hg] using ih
      | some c => simpa [List.filterMap_cons, List.filter_cons, hn, hg] using ih

/-- **C6.** `export` is a single sequential loop: the components processed are
exactly the configured ones whose names are found in the assembly, taken in
config order; each processed component produces one trace event carrying its
iteration index (the progress value shown for it); the loop runs to the end
unless the cancel check fires, in which case it stops right after the current
(exported) component; and the manifest accumulated so far is written out in
every case. -/
theorem export_loop_structure (env : ExportEnv) (main_cfg : ExportConfig)
    (output_dir : String) (root : OccOrComponent) (fs : FS)
    (hOK : ∀ p ∈ selectedComponents main_cfg (recursiveEnumerateComponents root),
      stepOKb main_cfg p.1 = true) :
    ∃ stF, export' env main_cfg output_dir root fs = Except.ok stF
      ∧ (selectedComponents main_cfg (recursiveEnumerateComponents root)).map Prod.fst
          = main_cfg.components.filter (fun cfg => match cfg.name with
              | some n => (dictGet? (recursiveEnumerateComponents root) n).isSome
              | none => false)
      ∧ stF.trace.length ≤ (selectedComponents main_cfg (recursiveEnumerateComponents root)).length
      ∧ (∀ j ev, stF.trace.get? j = some ev →
          ∃ p, (selectedComponents main_cfg (recursiveEnumerateComponents root)).get? j = some p
            ∧ Event.cname ev = p.2.name ∧ Event.idx ev = j)
      ∧ ((∀ j, j < (selectedComponents main_cfg (recursiveEnumerateComponents root)).length →
            env.cancelled j = false) →
          stF.trace.length
            = (selectedComponents main_cfg (recursiveEnumerateComponents root)).length)
      ∧ (stF.trace.length
            = (selectedComponents main_cfg (recursiveEnumerateComponents root)).length
          ∨ ∃ jn nm k e rot, stF.trace.getLast? = some (Event.exported jn nm k e rot)
              ∧ env.cancelled jn = true ∧ jn + 1 = stF.trace.length)
      ∧ stF.manifestFile = some stF.version_control := by
  rcases export'_spec env main_cfg output_dir root fs hOK with
    ⟨stF, hexp, hmani, hlen, hcorr, hbrk, hfull, hfeat, hframe, hprov, hfinal⟩
  refine ⟨stF, hexp, selectedComponents_names _ _, hlen, ?_, hfull, hbrk, hmani⟩
  intro j ev hj
  rcases hcorr j ev hj with ⟨p, hp, hm⟩
  refine ⟨p, hp, ?_, ?_⟩
  · cases ev with
    | skipped jn n => exact hm.2
    | exported jn n k e rot => exact hm.2.1
  · cases ev with
    | skipped jn n => exact hm.1
    | exported jn n k e rot => exact hm.1

theorem export_loop_structure_witness :
    ∃ stF, export' witnessEnv witnessMain "out" (OccOrComponent.comp witnessCmp) witnessFS
        = Except.ok stF
      ∧ (selectedComponents witnessMain (recursiveEnumerateComponents (OccOrComponent.comp witnessCmp))).map Prod.fst
          = witnessMain.components.filter (fun cfg => match cfg.name with
              | some n => (dictGet? (recursiveEnumerateComponents (OccOrComponent.comp witnessCmp)) n).isSome
              | none => false)
      ∧ stF.trace.length ≤ (selectedComponents witnessMain (recursiveEnumerateComponents (OccOrComponent.comp witnessCmp))).length
      ∧ (∀ j ev, stF.trace.get? j = some ev →
          ∃ p, (selectedComponents witnessMain (recursiveEnumerateComponents (OccOrComponent.comp witnessCmp))).get? j = some p
            ∧ Event.cname ev = p.2.name ∧ Event.idx ev = j)
      ∧ ((∀ j, j < (selectedComponents witnessMain (recursiveEnumerateComponents (OccOrComponent.comp witnessCmp))).length →
            witnessEnv.cancelled j = false) →
          stF.trace.length
            = (selectedComponents witnessMain (recursiveEnumerateComponents (OccOrComponent.comp witnessCmp))).length)
      ∧ (stF.trace.length
            = (selectedComponents witnessMain (recursiveEnumerateComponents (OccOrComponent.comp witnessCmp))).length
          ∨ ∃ jn nm k e rot, stF.trace.getLast? = some (Event.exported jn nm k e rot)
              ∧ witnessEnv.cancelled jn = true ∧ jn + 1 = stF.trace.length)
      ∧ stF.manifestFile = some stF.version_control :=
  export_loop_structure witnessEnv witnessMain "out" (OccOrComponent.comp witnessCmp)
    witnessFS (by decide)

/-- **C7.** The manifest written at the end preserves every entry of the
previously existing manifest whose key no exported (non-skipped) component
wrote in this run, and holds, for each component actually exported, the fresh
entry recorded in its trace event, stamped with this run's timestamp.
(The hypothesis that the selected file keys are distinct rules out two
configured components sharing one `to` basename.) -/
theorem export_manifest_preservation (env : ExportEnv) (main_cfg : ExportConfig)
    (output_dir : String) (root : OccOrComponent) (fs : FS)
    (hOK : ∀ p ∈ selectedComponents main_cfg (recursiveEnumerateComponents root),
      stepOKb main_cfg p.1 = true)
    (hnodup : ((selectedComponents main_cfg (recursiveEnumerateComponents root)).map
      (fun p => fileKeyD main_cfg p.1)).Nodup) :
    ∃ stF, export' env main_cfg output_dir root fs = Except.ok stF
      ∧ ∃ vc, stF.manifestFile = some vc
        ∧ (∀ k, (∀ jn nm e rot, Event.exported jn nm k e rot ∉ stF.trace) →
            dictGet? vc k = dictGet? (fs.manifestFile.getD []) k)
        ∧ (∀ jn nm k e rot, Event.exported jn nm k e rot ∈ stF.trace →
            dictGet? vc k = some e ∧ e.changed = env.now jn ∧ e.component = nm) := by
  rcases export'_spec env main_cfg output_dir root fs hOK with
    ⟨stF, hexp, hmani, hlen, hcorr, hbrk, hfull, hfeat, hframe, hprov, hfinal⟩
  refine ⟨stF, hexp, stF.version_control, hmani, hframe, ?_⟩
  intro jn nm k e rot hmem
  refine ⟨hfinal hnodup jn nm k e rot hmem, ?_, ?_⟩
  · rcases List.get?_of_mem hmem with ⟨j, hj⟩
    rcases hcorr j _ hj with ⟨p, hp, hm⟩
    obtain ⟨rfl, -, t, x, -, -, -, he, -⟩ := hm
    rw [he]
    rfl
  · rcases List.get?_of_mem hmem with ⟨j, hj⟩
    rcases hcorr j _ hj with ⟨p, hp, hm⟩
    obtain ⟨-, hnm, t, x, -, -, -, he, -⟩ := hm
    rw [he, hnm]
    rfl

theorem export_manifest_preservation_witness :
    ∃ stF, export' witnessEnv witnessMain "out" (OccOrComponent.comp witnessCmp) witnessFS
        = Except.ok stF
      ∧ ∃ vc, stF.manifestFile = some vc
        ∧ (∀ k, (∀ jn nm e rot, Event.exported jn nm k e rot ∉ stF.trace) →
            dictGet? vc k = dictGet? (witnessFS.manifestFile.getD []) k)
        ∧ (∀ jn nm k e rot, Event.exported jn nm k e rot ∈ stF.trace →
            dictGet? vc k = some e ∧ e.changed = witnessEnv.now jn ∧ e.component = nm) :=
  export_manifest_preservation witnessEnv witnessMain "out" (OccOrComponent.comp witnessCmp)
    witnessFS (by decide) (by decide)

/-- **C2.** The manifest is loaded from and saved to a JSON file as a flat
one-level object from file key to entry, and every entry written by `export`
is a flat object with exactly the five string fields `component` (the
component's name), `filename` (the exported file path), `revisionId`,
`fromDocument` (the source document name) and `changed` (an export
timestamp); entries of the final manifest are either carried over from the
loaded file or are such written entries. -/
theorem export_manifest_shape (env : ExportEnv) (main_cfg : ExportConfig)
    (output_dir : String) (root : OccOrComponent) (fs : FS)
    (hOK : ∀ p ∈ selectedComponents main_cfg (recursiveEnumerateComponents root),
      stepOKb main_cfg p.1 = true) :
    ∃ stF, export' env main_cfg output_dir root fs = Except.ok stF
      ∧ ∃ vc, stF.manifestFile = some vc
        ∧ manifestToJson vc = JValue.obj (vc.map (fun p => (p.1, p.2.toJson)))
        ∧ (∀ k e, (k, e) ∈ vc →
            objKeys e.toJson
                = ["component", "filename", "revisionId", "fromDocument", "changed"]
              ∧ isFlatStringObj e.toJson = true
              ∧ ((k, e) ∈ fs.manifestFile.getD [] ∨
                  ∃ j p, (selectedComponents main_cfg (recursiveEnumerateComponents root)).get? j
                      = some p
                    ∧ e.component = p.2.name ∧ e.revisionId = p.2.revisionId
                    ∧ e.fromDocument = env.rootCompName ∧ e.changed = env.now j
                    ∧ ∃ t x, p.1.«to» = some t ∧ effectiveExt main_cfg p.1 = some x
                        ∧ e.filename = pathJoin output_dir (mkFileName t x p.1.count))) := by
  rcases export'_spec env main_cfg output_dir root fs hOK with
    ⟨stF, hexp, hmani, hlen, hcorr, hbrk, hfull, hfeat, hframe, hprov, hfinal⟩
  refine ⟨stF, hexp, stF.version_control, hmani, rfl, ?_⟩
  intro k e hmem
  refine ⟨rfl, rfl, ?_⟩
  rcases hprov k e hmem with h | ⟨jn, nm, rot, h⟩
  · exact Or.inl h
  · rcases List.get?_of_mem h with ⟨j, hj⟩
    rcases hcorr j _ hj with ⟨p, hp, hm⟩
    obtain ⟨hj1, hnm, t, x, ht, hx, hk, he, hrot⟩ := hm
    refine Or.inr ⟨j, p, hp, ?_, ?_, ?_, ?_, t, x, ht, hx, ?_⟩ <;> rw [he] <;> rfl

theorem export_manifest_shape_witness :
    ∃ stF, export' witnessEnv witnessMain "out" (OccOrComponent.comp witnessCmp) witnessFS
        = Except.ok stF
      ∧ ∃ vc, stF.manifestFile = some vc
        ∧ manifestToJson vc = JValue.obj (vc.map (fun p => (p.1, p.2.toJson)))
        ∧ (∀ k e, (k, e) ∈ vc →
            objKeys e.toJson
                = ["component", "filename", "revisionId", "fromDocument", "changed"]
              ∧ isFlatStringObj e.toJson = true
              ∧ ((k, e) ∈ witnessFS.manifestFile.getD [] ∨
                  ∃ j p, (selectedComponents witnessMain
                        (recursiveEnumerateComponents (OccOrComponent.comp witnessCmp))).get? j
                      = some p
                    ∧ e.component = p.2.name ∧ e.revisionId = p.2.revisionId
                    ∧ e.fromDocument = witnessEnv.rootCompName ∧ e.changed = witnessEnv.now j
                    ∧ ∃ t x, p.1.«to» = some t ∧ effectiveExt witnessMain p.1 = some x
                        ∧ e.filename = pathJoin "out" (mkFileName t x p.1.count))) :=
  export_manifest_shape witnessEnv witnessMain "out" (OccOrComponent.comp witnessCmp)
    witnessFS (by decide)

theorem rotB_iff (up : Option String) :
    rotB up = true ↔ ∃ u, up = some u ∧ u ≠ "z" := by
  cases up with
  | none => simp [rotB]
  | some u => simp [rotB, bne_iff_ne]

/-- **C3.** The reorientation is temporary: a move feature is created for a
processed component exactly when it is exported with its configured `up` set
and different from `"z"` (the trace's `rotated` flag), and every created one
is deleted after the mesh export, so when `export` returns every component
carries exactly the move features it started with; skipped components and
components with `up` unset or `"z"` have their features untouched throughout. -/
theorem export_move_features (env : ExportEnv) (main_cfg : ExportConfig)
    (output_dir : String) (root : OccOrComponent) (fs : FS)
    (hOK : ∀ p ∈ selectedComponents main_cfg (recursiveEnumerateComponents root),
      stepOKb main_cfg p.1 = true) :
    ∃ stF, export' env main_cfg output_dir root fs = Except.ok stF
      ∧ (∀ n, featureCount stF n = dictGetD fs.moveFeatures n 0)
      ∧ (∀ j ev, stF.trace.get? j = some ev →
          ∃ p, (selectedComponents main_cfg (recursiveEnumerateComponents root)).get? j = some p
            ∧ ∀ jn nm k e rot, ev = Event.exported jn nm k e rot →
                (rot = true ↔ ∃ u, p.1.up = some u ∧ u ≠ "z")) := by
  rcases export'_spec env main_cfg output_dir root fs hOK with
    ⟨stF, hexp, hmani, hlen, hcorr, hbrk, hfull, hfeat, hframe, hprov, hfinal⟩
  refine ⟨stF, hexp, hfeat, ?_⟩
  intro j ev hj
  rcases hcorr j ev hj with ⟨p, hp, hm⟩
  refine ⟨p, hp, ?_⟩
  intro jn nm k e rot hev
  subst hev
  obtain ⟨-, -, t, x, -, -, -, -, hrot⟩ := hm
  rw [hrot]
  exact rotB_iff p.1.up

theorem export_move_features_witness :
    ∃ stF, export' witnessEnv witnessMain "out" (OccOrComponent.comp witnessCmp) witnessFS
        = Except.ok stF
      ∧ (∀ n, featureCount stF n = dictGetD witnessFS.moveFeatures n 0)
      ∧ (∀ j ev, stF.trace.get? j = some ev →
          ∃ p, (selectedComponents witnessMain
                (recursiveEnumerateComponents (OccOrComponent.comp witnessCmp))).get? j = some p
            ∧ ∀ jn nm k e rot, ev = Event.exported jn nm k e rot →
                (rot = true ↔ ∃ u, p.1.up = some u ∧ u ≠ "z")) :=
  export_move_features witnessEnv witnessMain "out" (OccOrComponent.comp witnessCmp)
    witnessFS (by decide)

/-- **C5 (amended).** The key under which an exported component's entry is
stored in the manifest is the configured basename with the effective format
extension stripped off its end when present — without the `_x{count}` suffix
and without the extension — not the name of the file written; the full path
of the written file is recorded inside the entry's `filename` field instead. -/
theorem export_manifest_key (env : ExportEnv) (main_cfg : ExportConfig)
    (output_dir : String) (root : OccOrComponent) (fs : FS)
    (hOK : ∀ p ∈ selectedComponents main_cfg (recursiveEnumerateComponents root),
      stepOKb main_cfg p.1 = true)
    (hnodup : ((selectedComponents main_cfg (recursiveEnumerateComponents root)).map
      (fun p => fileKeyD main_cfg p.1)).Nodup) :
    ∃ stF, export' env main_cfg output_dir root fs = Except.ok stF
      ∧ ∀ j ev, stF.trace.get? j = some ev →
          ∀ jn nm k e rot, ev = Event.exported jn nm k e rot →
            ∃ p t x, (selectedComponents main_cfg (recursiveEnumerateComponents root)).get? j
                = some p
              ∧ p.1.«to» = some t ∧ effectiveExt main_cfg p.1 = some x
              ∧ k = mkFileKey t x
              ∧ e.filename = pathJoin output_dir (mkFileName t x p.1.count)
              ∧ dictGet? stF.version_control k = some e := by
  rcases export'_spec env main_cfg output_dir root fs hOK with
    ⟨stF, hexp, hmani, hlen, hcorr, hbrk, hfull, hfeat, hframe, hprov, hfinal⟩
  refine ⟨stF, hexp, ?_⟩
  intro j ev hj jn nm k e rot hev
  subst hev
  rcases hcorr j _ hj with ⟨p, hp, hm⟩
  obtain ⟨hj1, hnm, t, x, ht, hx, hk, he, hrot⟩ := hm
  refine ⟨p, t, x, hp, ht, hx, hk, by rw [he]; rfl, ?_⟩
  exact hfinal hnodup jn nm k e rot (List.get?_mem hj)

theorem export_manifest_key_witness :
    ∃ stF, export' witnessEnv witnessMain "out" (OccOrComponent.comp witnessCmp) witnessFS
        = Except.ok stF
      ∧ ∀ j ev, stF.trace.get? j = some ev →
          ∀ jn nm k e rot, ev = Event.exported jn nm k e rot →
            ∃ p t x, (selectedComponents witnessMain
                  (recursiveEnumerateComponents (OccOrComponent.comp witnessCmp))).get? j
                = some p
              ∧ p.1.«to» = some t ∧ effectiveExt witnessMain p.1 = some x
              ∧ k = mkFileKey t x
              ∧ e.filename = pathJoin "out" (mkFileName t x p.1.count)
              ∧ dictGet? stF.version_control k = some e :=
  export_manifest_key witnessEnv witnessMain "out" (OccOrComponent.comp witnessCmp)
    witnessFS (by decide) (by decide)

/-- The final state of the concrete C5 run: one component `Part` exported to
`out/part.stl`, stored in the manifest under the key `part`. -/
def counterexampleEntry : ManifestEntry :=
  { component := "Part", filename := "out/part.stl", revisionId := "rev1",
    fromDocument := "Root", changed := "2025" }

/-- **C5 counterexample.** In a run exporting the single component `Part`
with `to="part"` and format `stl`, the file written is `out/part.stl` (name
`part.stl`), but its manifest entry is stored under the key `"part"`: the
manifest is not keyed by the exported filename. -/
theorem export_manifest_key_counterexample :
    export' witnessEnv witnessMain "out" (OccOrComponent.comp witnessCmp) witnessFS
      = Except.ok
        { version_control := [("part", counterexampleEntry)]
          disk := ["out/part.stl"]
          moveFeatures := []
          manifestFile := some [("part", counterexampleEntry)]
          progressValue := 1
          trace := [Event.exported 0 "Part" "part" counterexampleEntry false] }
    ∧ ("part" : String) ≠ "part.stl" ∧ ("part" : String) ≠ "out/part.stl" :=
  ⟨rfl, by decide, by decide⟩
